import Mathlib

/-!
Verification development for the Polymesh settlement pallet
(`pallets/settlement/src/lib.rs`).

Shallow embedding conventions:
* Machine identifiers (`IdentityId`, `PortfolioId`, `Ticker`, `AccountId`,
  `VenueId`, `InstructionId`, `LegId`, `Balance`, `Moment`, block numbers)
  are modelled as `Nat`.  The source's strongly typed wrappers are ordered
  and only compared / used as map keys, so the `Nat` encoding is faithful.
* Substrate storage maps are modelled as total functions returning the
  storage default (matching `decl_storage` getters), `Option`-valued
  functions where the source uses an `Option` getter, and per-instruction
  association lists for double maps that the source iterates with
  `iter_prefix` (whose yield order is unspecified — hence an arbitrary
  list order in the model).
* External collaborator pallets (portfolio locking, asset transfer, NFT
  transfer, identity/custody checks, off-chain signature verification) are
  not part of the sources; following the spec they are consumed through
  interfaces, modelled here as an `Externals` record of oracle functions
  over an abstract external-state type `E`.
* Event deposits (`deposit_event`) are pure observability and are not
  modelled, except where an entry point's only failure report is an event,
  in which case the would-be event payload is returned.
* The scheduler bridge (`schedule_named` / `cancel_named`) is fire-and-
  forget from the settlement storage's point of view and is not modelled.
* `frame_storage_with_transaction` is modelled by explicitly discarding
  the state produced by the transactional closure when it rolls back.
  Dispatch-level transactionality (a failing extrinsic commits nothing)
  is modelled by entry points returning no state on error.
-/

namespace Settlement

/-- Status of an instruction (`InstructionStatus`). -/
inductive InstructionStatus where
  | unknown
  | pending
  | failed
  | success (blockNumber : Nat)
  | rejected (blockNumber : Nat)
  deriving DecidableEq, Repr

instance : Inhabited InstructionStatus := ⟨.unknown⟩

/-- Status of a leg (`LegStatus<AccountId>`); the default is `PendingTokenLock`. -/
inductive LegStatus where
  | pendingTokenLock
  | executionPending
  | executionToBeSkipped (signer : Nat) (receiptUid : Nat)
  deriving DecidableEq, Repr

instance : Inhabited LegStatus := ⟨.pendingTokenLock⟩

/-- Status of an affirmation (`AffirmationStatus`); the storage default is `Unknown`. -/
inductive AffirmationStatus where
  | unknown
  | pending
  | affirmed
  deriving DecidableEq, Repr

instance : Inhabited AffirmationStatus := ⟨.unknown⟩

/-- Type of settlement (`SettlementType<BlockNumber>`). -/
inductive SettlementType where
  | settleOnAffirmation
  | settleOnBlock (blockNumber : Nat)
  | settleManual (blockNumber : Nat)
  deriving DecidableEq, Repr

instance : Inhabited SettlementType := ⟨.settleOnAffirmation⟩

/-- A set of non-fungible tokens on one ticker (`NFTs`). -/
structure NFTs where
  ticker : Nat
  ids : List Nat
  deriving DecidableEq, Repr

instance : Inhabited NFTs := ⟨⟨0, []⟩⟩

/-- The legacy fungible-only leg (`Leg`). -/
structure Leg where
  from_ : Nat
  to_ : Nat
  asset : Nat
  amount : Nat
  deriving DecidableEq, Repr

instance : Inhabited Leg := ⟨⟨0, 0, 0, 0⟩⟩

/-- Type of assets that can be transferred in a `LegV2` (`LegAsset`). -/
inductive LegAsset where
  | fungible (ticker : Nat) (amount : Nat)
  | nonFungible (nfts : NFTs)
  deriving DecidableEq, Repr

instance : Inhabited LegAsset := ⟨.fungible 0 0⟩

/-- The unified leg encoding (`LegV2`). -/
structure LegV2 where
  from_ : Nat
  to_ : Nat
  asset : LegAsset
  deriving DecidableEq, Repr

instance : Inhabited LegV2 := ⟨⟨0, 0, default⟩⟩

/-- `LegAsset::ticker_and_amount`. -/
def LegAsset.tickerAndAmount : LegAsset → Nat × Nat
  | .fungible ticker amount => (ticker, amount)
  | .nonFungible nfts => (nfts.ticker, nfts.ids.length)

/-- `impl TryFrom<LegV2> for Leg`: only fungible legs convert. -/
def Leg.tryFromLegV2 (legV2 : LegV2) : Except String Leg :=
  match legV2.asset with
  | .nonFungible _nfts => .error "InvalidLegAsset"
  | .fungible ticker amount =>
      .ok { from_ := legV2.from_, to_ := legV2.to_, asset := ticker, amount := amount }

/-- `impl From<Leg> for LegV2`. -/
def LegV2.ofLeg (leg : Leg) : LegV2 :=
  { from_ := leg.from_, to_ := leg.to_, asset := .fungible leg.asset leg.amount }

/-- `TransferData`: the number of fungible and non fungible transfers in a set of legs. -/
structure TransferData where
  fungible : Nat
  nonFungible : Nat
  deriving DecidableEq, Repr

/-- Details about a venue (`Venue`). -/
structure Venue where
  creator : Nat
  venueType : Nat
  deriving DecidableEq, Repr

/-- Details about an instruction (`Instruction<Moment, BlockNumber>`). -/
structure Instruction where
  instructionId : Nat
  venueId : Nat
  settlementType : SettlementType
  createdAt : Option Nat
  tradeDate : Option Nat
  valueDate : Option Nat
  deriving DecidableEq, Repr

instance : Inhabited Instruction :=
  ⟨⟨0, 0, .settleOnAffirmation, none, none, none⟩⟩

/-- The off-chain receipt message that gets signed (`Receipt<Balance>`). -/
structure Receipt where
  receiptUid : Nat
  from_ : Nat
  to_ : Nat
  asset : Nat
  amount : Nat
  deriving DecidableEq, Repr

/-- User-supplied receipt data (`ReceiptDetails<AccountId, OffChainSignature>`). -/
structure ReceiptDetails where
  receiptUid : Nat
  legId : Nat
  signer : Nat
  signature : Nat
  metadata : Nat
  deriving DecidableEq, Repr

/-- Errors of the settlement module (`decl_error!`), plus one constructor for
errors surfaced by external collaborator pallets (portfolio custody / locking),
one for the id-counter overflow of `try_next_post`, and one for the
`InstructionSettleBlockNotReached` / date validations used by the entry points. -/
inductive Err where
  | invalidVenue
  | unauthorized
  | instructionNotAffirmed
  | instructionNotPending
  | instructionNotFailed
  | unauthorizedSigner
  | receiptAlreadyClaimed
  | unauthorizedVenue
  | failedToLockTokens
  | instructionFailed
  | instructionDatesInvalid
  | instructionSettleBlockPassed
  | invalidSignature
  | sameSenderReceiver
  | portfolioMismatch
  | settleOnPastBlock
  | unexpectedAffirmationStatus
  | legCountTooSmall
  | unknownInstruction
  | instructionHasTooManyLegs
  | zeroAmount
  | instructionSettleBlockNotReached
  | callerIsNotAParty
  | invalidLegAsset
  | maxNumberOfNFTsExceeded
  | maxNumberOfNFTsPerLegExceeded
  | numberOfTransferredNFTsUnderestimated
  | deprecatedCallOnV2Instruction
  | receiptForNonFungibleAsset
  | duplicatedNFTId
  | counterOverflow
  | externalError
  deriving DecidableEq, Repr

/-- Runtime constants from the `Config` trait. -/
structure Config where
  maxNumberOfFungibleAssets : Nat
  maxNumberOfNFTsPerLeg : Nat
  maxNumberOfNFTs : Nat
  deriving DecidableEq, Repr

/-- The settlement pallet's storage (`decl_storage!`), the current block
number and timestamp, the one piece of foreign storage the pallet reads
directly (`pallet_asset::Tokens::contains_key`), and the abstract state `E`
of the external collaborator pallets. -/
structure Chain (E : Type) where
  venueInfo : Nat → Option Venue
  venueSigners : Nat → Nat → Bool
  venueInstructions : Nat → Nat → Bool
  instructionDetails : Nat → Option Instruction
  instructionLegs : Nat → List (Nat × Leg)
  instructionLegsV2 : Nat → List (Nat × LegV2)
  instructionLegStatus : Nat → Nat → LegStatus
  instructionAffirmsPending : Nat → Nat
  affirmsReceived : Nat → Nat → AffirmationStatus
  userAffirmations : Nat → Nat → AffirmationStatus
  receiptsUsed : Nat → Nat → Bool
  venueFiltering : Nat → Bool
  venueAllowList : Nat → Nat → Bool
  instructionCounter : Nat
  instructionMemos : Nat → Option Nat
  instructionStatuses : Nat → InstructionStatus
  tokens : Nat → Bool
  blockNumber : Nat
  timestamp : Nat
  ext : E

/-- Oracles for the external collaborator pallets, as fixed by the spec's
interface list: portfolio locking/unlocking, asset and NFT transfer,
portfolio custody + permission for the current caller, off-chain signature
verification, and the NFT pallet's per-leg transfer-limit check.
Modelled from the spec: the portfolio, asset, NFT and identity pallets are
outside the sources; §6 of the spec fixes their interfaces as fallible
calls, rendered here as `Option`-returning state transformers (`none` is
the collaborator's error). -/
structure Externals (E : Type) where
  lockLeg : LegV2 → E → Option E
  unlockLeg : LegV2 → E → Option E
  transferFungible : Nat → Nat → Nat → Nat → E → Option E
  transferNFTs : Nat → Nat → NFTs → E → Option E
  custody : Nat → Bool
  verifySig : Nat → Receipt → Nat → Bool
  nftLimitsOk : NFTs → Bool

/-- First-match association lookup, mirroring a storage double-map read. -/
def assocFind {α : Type} (key : Nat) : List (Nat × α) → Option α
  | [] => none
  | (k, v) :: rest => if k = key then some v else assocFind key rest

/-- Association insert, mirroring a storage double-map `insert`
(replaces the first binding of the key, otherwise appends). -/
def assocInsert {α : Type} (key : Nat) (value : α) : List (Nat × α) → List (Nat × α)
  | [] => [(key, value)]
  | (k, v) :: rest =>
      if k = key then (k, value) :: rest else (k, v) :: assocInsert key value rest

/-- Sorted-unique insertion, mirroring `BTreeSet::insert` on `Nat` keys. -/
def btInsert (x : Nat) : List Nat → List Nat
  | [] => [x]
  | y :: rest =>
      if x = y then y :: rest
      else if x < y then x :: y :: rest
      else y :: btInsert x rest

/-- Fold a list of keys into a sorted-unique list (a `BTreeSet`). -/
def btOfList (l : List Nat) : List Nat := l.foldr btInsert []

@[simp] theorem mem_btInsert {x y : Nat} {l : List Nat} :
    y ∈ btInsert x l ↔ y = x ∨ y ∈ l := by
  induction l with
  | nil => simp [btInsert]
  | cons z rest ih =>
      simp only [btInsert]
      by_cases hxz : x = z
      · subst hxz
        simp [List.mem_cons]
      · by_cases hlt : x < z
        · simp [hxz, hlt, List.mem_cons]
        · simp [hxz, hlt, List.mem_cons, ih]
          tauto

@[simp] theorem mem_btOfList {y : Nat} {l : List Nat} :
    y ∈ btOfList l ↔ y ∈ l := by
  induction l with
  | nil => simp [btOfList]
  | cons z rest ih =>
      simp only [btOfList, List.foldr_cons] at *
      rw [mem_btInsert, ih, List.mem_cons]

theorem btInsert_sorted {x : Nat} {l : List Nat}
    (h : l.Pairwise (· < ·)) : (btInsert x l).Pairwise (· < ·) := by
  induction l with
  | nil => simp [btInsert]
  | cons z rest ih =>
      rcases List.pairwise_cons.mp h with ⟨hz, hrest⟩
      by_cases hxz : x = z
      · simpa [btInsert, hxz] using h
      · by_cases hlt : x < z
        · have heq : btInsert x (z :: rest) = x :: z :: rest := by
            simp [btInsert, hxz, hlt]
          rw [heq]
          refine List.pairwise_cons.mpr ⟨?_, h⟩
          intro y hy
          rcases List.mem_cons.mp hy with h1 | h1
          · omega
          · have := hz y h1; omega
        · have heq : btInsert x (z :: rest) = z :: btInsert x rest := by
            simp [btInsert, hxz, hlt]
          rw [heq]
          refine List.pairwise_cons.mpr ⟨?_, ih hrest⟩
          intro y hy
          rcases mem_btInsert.mp hy with h1 | h1
          · omega
          · exact hz y h1

theorem btOfList_sorted (l : List Nat) : (btOfList l).Pairwise (· < ·) := by
  induction l with
  | nil => simp [btOfList]
  | cons z rest ih => exact btInsert_sorted ih

theorem btOfList_nodup (l : List Nat) : (btOfList l).Nodup :=
  (btOfList_sorted l).imp (fun h => Nat.ne_of_lt h)

section Operations

variable {E : Type}

/-- `instruction_details` getter: value-typed storage map, returns the
default `Instruction` when the key is absent. -/
def Chain.details (c : Chain E) (id : Nat) : Instruction :=
  (c.instructionDetails id).getD default

/-- `get_instruction_leg`: try the new `InstructionLegsV2` table, fall back
to the deprecated `InstructionLegs` table (converting). -/
def getInstructionLeg (c : Chain E) (id legId : Nat) : LegV2 :=
  match assocFind legId (c.instructionLegsV2 id) with
  | some leg => leg
  | none => LegV2.ofLeg ((assocFind legId (c.instructionLegs id)).getD default)

/-- `get_instruction_legs`: all `(LegId, LegV2)` pairs of an instruction,
from `InstructionLegsV2`, or converted from the deprecated table when the
new table holds nothing for this instruction. -/
def getInstructionLegs (c : Chain E) (id : Nat) : List (Nat × LegV2) :=
  let instructionLegs := c.instructionLegsV2 id
  if instructionLegs.isEmpty then
    (c.instructionLegs id).map (fun p => (p.1, LegV2.ofLeg p.2))
  else instructionLegs

/-- `drain_instruction_legs`: like `get_instruction_legs` but removing the
drained table. -/
def drainInstructionLegs (c : Chain E) (id : Nat) :
    List (Nat × LegV2) × Chain E :=
  let drainedLegs := c.instructionLegsV2 id
  if drainedLegs.isEmpty then
    ((c.instructionLegs id).map (fun p => (p.1, LegV2.ofLeg p.2)),
     { c with instructionLegs := fun i => if i = id then [] else c.instructionLegs i })
  else
    (drainedLegs,
     { c with instructionLegsV2 := fun i => if i = id then [] else c.instructionLegsV2 i })

/-- Stable insertion step for sorting legs by leg id. -/
def sortedInsertLeg (p : Nat × LegV2) : List (Nat × LegV2) → List (Nat × LegV2)
  | [] => [p]
  | q :: rest => if p.1 < q.1 then p :: q :: rest else q :: sortedInsertLeg p rest

/-- `instruction_legs.sort_by_key(|leg_id_leg| leg_id_leg.0)`: sort the legs
by ascending leg id (stable insertion sort, like Rust's stable sort). -/
def sortLegsById : List (Nat × LegV2) → List (Nat × LegV2)
  | [] => []
  | p :: rest => sortedInsertLeg p (sortLegsById rest)

/-- The leg list `execute_instruction` iterates: the stored legs sorted by
ascending leg id. -/
def executionOrder (c : Chain E) (id : Nat) : List (Nat × LegV2) :=
  sortLegsById (getInstructionLegs c id)

/-- `get_transfer_data`: count fungible and non-fungible transfers,
rejecting any leg above the per-leg NFT bound. -/
def getTransferData (cfg : Config) :
    List (Nat × LegV2) → Except Err TransferData
  | [] => .ok ⟨0, 0⟩
  | (_, leg) :: rest => do
      let td ← getTransferData cfg rest
      match leg.asset with
      | .fungible _ _ => .ok ⟨td.fungible + 1, td.nonFungible⟩
      | .nonFungible nfts =>
          if nfts.ids.length ≤ cfg.maxNumberOfNFTsPerLeg then
            .ok ⟨td.fungible, td.nonFungible + nfts.ids.length⟩
          else .error .maxNumberOfNFTsPerLegExceeded

/-- `ensure_valid_input_cost`: caller-declared transfer counts must bound
the actual counts; an NFT transfer with no declared NFT count is a
deprecated call on a v2 instruction. -/
def ensureValidInputCost (transferData : TransferData)
    (fungibleTransfers : Nat) (nftsTransfers : Option Nat) : Except Err Unit :=
  if transferData.nonFungible > 0 then
    match nftsTransfers with
    | none => .error .deprecatedCallOnV2Instruction
    | some n =>
        if transferData.nonFungible ≤ n then
          (if transferData.fungible ≤ fungibleTransfers then .ok ()
           else .error .legCountTooSmall)
        else .error .numberOfTransferredNFTsUnderestimated
  else
    (if transferData.fungible ≤ fungibleTransfers then .ok ()
     else .error .legCountTooSmall)

/-- The legs of an instruction whose sender is in the given portfolio
set (the `legs_from_set` of `filtered_legs`). -/
def filteredSenderLegs (c : Chain E) (id : Nat) (portfolioSet : List Nat) :
    List (Nat × LegV2) :=
  (getInstructionLegs c id).filter (fun p => p.2.from_ ∈ portfolioSet)

/-- `filtered_legs`: total leg count and the legs whose sender is in the
given portfolio set, with the input-cost check. -/
def filteredLegs (cfg : Config) (c : Chain E) (id : Nat)
    (portfolioSet : List Nat) (fungibleTransfers : Nat)
    (nftsTransfers : Option Nat) :
    Except Err (Nat × List (Nat × LegV2)) := do
  let transferData ← getTransferData cfg (filteredSenderLegs c id portfolioSet)
  let _ ← ensureValidInputCost transferData fungibleTransfers nftsTransfers
  .ok ((getInstructionLegs c id).length, filteredSenderLegs c id portfolioSet)

/-- `venue_for_management`: the venue must exist and be created by `did`. -/
def venueForManagement (c : Chain E) (id did : Nat) : Except Err Venue := do
  match c.venueInfo id with
  | none => throw .invalidVenue
  | some venue =>
      if venue.creator = did then .ok venue else throw .unauthorized

/-- `ensure_instruction_validity`: the instruction's status must be known,
and block-scheduled instructions respect their target block (before it for
affirmation-family calls, at-or-after it for execution-family calls). -/
def ensureInstructionValidity (c : Chain E) (id : Nat) (isExecute : Bool) :
    Except Err Instruction := do
  let details := c.details id
  if c.instructionStatuses id = .unknown then throw .unknownInstruction
  match details.settlementType, isExecute with
  | .settleOnBlock blockNumber, true =>
      if blockNumber ≤ c.blockNumber then .ok details
      else throw .instructionSettleBlockNotReached
  | .settleOnBlock blockNumber, false =>
      if blockNumber > c.blockNumber then .ok details
      else throw .instructionSettleBlockPassed
  | .settleManual blockNumber, true =>
      if blockNumber ≤ c.blockNumber then .ok details
      else throw .instructionSettleBlockNotReached
  | _, _ => .ok details

/-- `ensure_portfolios_and_affirmation_status`: each portfolio of the set
must be under the caller's custody (external check, oracle) and its user
affirmation for the instruction must be among the expected statuses. -/
def ensurePortfoliosAndAffirmationStatus (ex : Externals E) (c : Chain E)
    (id : Nat) (expectedStatuses : List AffirmationStatus) :
    List Nat → Except Err Unit
  | [] => .ok ()
  | portfolio :: rest => do
      if ex.custody portfolio then
        if expectedStatuses.contains (c.userAffirmations portfolio id) then
          ensurePortfoliosAndAffirmationStatus ex c id expectedStatuses rest
        else throw .unexpectedAffirmationStatus
      else throw .externalError

/-- Point update of a double-map-backed `Nat → Nat → α` storage function. -/
def update2 {α : Type} (f : Nat → Nat → α) (k1 k2 : Nat) (v : α) :
    Nat → Nat → α :=
  fun a b => if a = k1 ∧ b = k2 then v else f a b

/-- `lock_via_leg` (portfolio collaborator): lock the leg's resource; the
per-NFT lock loop of the source runs in its own transaction, so a leg's
locks apply all-or-nothing, which the leg-granular oracle captures. -/
def lockViaLeg (ex : Externals E) (leg : LegV2) (e : E) : Option E :=
  ex.lockLeg leg e

/-- `unlock_via_leg` (portfolio collaborator). -/
def unlockViaLeg (ex : Externals E) (leg : LegV2) (e : E) : Option E :=
  ex.unlockLeg leg e

/-- The leg-status/locking loop of `unsafe_affirm_instruction`'s
`with_transaction` block: lock every filtered leg and mark it
`ExecutionPending`; any lock failure aborts the whole block. -/
def affirmLockLoop (ex : Externals E) (id : Nat) :
    Chain E → List (Nat × LegV2) → Except Err (Chain E)
  | c, [] => .ok c
  | c, (legId, legDetails) :: rest =>
      match lockViaLeg ex legDetails c.ext with
      | none => .error .externalError
      | some e =>
          affirmLockLoop ex id
            { c with
              ext := e,
              instructionLegStatus :=
                update2 c.instructionLegStatus id legId .executionPending }
            rest

/-- Mark the given portfolios affirmed (`UserAffirmations` and
`AffirmsReceived` both set to `Affirmed`). -/
def markAffirmed (id : Nat) : Chain E → List Nat → Chain E
  | c, [] => c
  | c, portfolio :: rest =>
      markAffirmed id
        { c with
          userAffirmations := update2 c.userAffirmations portfolio id .affirmed,
          affirmsReceived := update2 c.affirmsReceived id portfolio .affirmed }
        rest

/-- Point update of the pending-affirmations counter. -/
def setAffirmsPending (id n : Nat) (c : Chain E) : Chain E :=
  { c with
    instructionAffirmsPending :=
      fun i => if i = id then n else c.instructionAffirmsPending i }

/-- `unsafe_affirm_instruction`. -/
def unsafeAffirmInstruction (ex : Externals E) (cfg : Config) (c : Chain E)
    (id : Nat) (portfolios : List Nat) (fungibleTransfers : Nat)
    (nftsTransferred : Option Nat) : Except Err (Nat × Chain E) := do
  let _ ← ensurePortfoliosAndAffirmationStatus ex c id [.pending]
    (btOfList portfolios)
  let res ←
    filteredLegs cfg c id (btOfList portfolios) fungibleTransfers nftsTransferred
  let c1 ← affirmLockLoop ex id c res.2
  .ok (res.1,
    setAffirmsPending id
      (c1.instructionAffirmsPending id - (btOfList portfolios).length)
      (markAffirmed id c1 (btOfList portfolios)))

/-- `base_affirm_instruction` (the body of `affirm_instruction` and the
v2 variant; origin permission is the external identity collaborator). -/
def baseAffirmInstruction (ex : Externals E) (cfg : Config) (c : Chain E)
    (id : Nat) (portfolios : List Nat) (fungibleTransfers : Nat)
    (nftsTransferred : Option Nat) : Except Err (Nat × Chain E) := do
  let _ ← ensureInstructionValidity c id false
  unsafeAffirmInstruction ex cfg c id portfolios fungibleTransfers nftsTransferred

/-- The entry point `affirm_instruction`: affirm with no declared NFT
count, then maybe schedule (scheduling is outside the storage model). -/
def affirmInstruction (ex : Externals E) (cfg : Config) (c : Chain E)
    (id : Nat) (portfolios : List Nat) (maxLegsCount : Nat) :
    Except Err (Chain E) := do
  let (_, c1) ← baseAffirmInstruction ex cfg c id portfolios maxLegsCount none
  .ok c1

/-- The per-leg body of `unsafe_withdraw_instruction_affirmation`'s leg
loop: unclaim a receipt-covered leg, unlock a locked leg, error on a
pending leg, and reset the status to `PendingTokenLock`. -/
def withdrawLegsLoop (ex : Externals E) (id : Nat) :
    Chain E → List (Nat × LegV2) → Except Err (Chain E)
  | c, [] => .ok c
  | c, (legId, legDetails) :: rest =>
      match c.instructionLegStatus id legId with
      | .executionToBeSkipped signer receiptUid =>
          withdrawLegsLoop ex id
            { c with
              receiptsUsed := update2 c.receiptsUsed signer receiptUid false,
              instructionLegStatus :=
                update2 c.instructionLegStatus id legId .pendingTokenLock }
            rest
      | .executionPending =>
          match unlockViaLeg ex legDetails c.ext with
          | none => .error .externalError
          | some e =>
              withdrawLegsLoop ex id
                { c with
                  ext := e,
                  instructionLegStatus :=
                    update2 c.instructionLegStatus id legId .pendingTokenLock }
                rest
      | .pendingTokenLock => .error .instructionNotAffirmed

/-- Reset the given portfolios to a pending affirmation
(`UserAffirmations` back to `Pending`, `AffirmsReceived` removed). -/
def markWithdrawn (id : Nat) : Chain E → List Nat → Chain E
  | c, [] => c
  | c, portfolio :: rest =>
      markWithdrawn id
        { c with
          userAffirmations := update2 c.userAffirmations portfolio id .pending,
          affirmsReceived := update2 c.affirmsReceived id portfolio .unknown }
        rest

/-- Point increment of the pending-affirmations counter. -/
def bumpAffirmsPending (id n : Nat) (c : Chain E) : Chain E :=
  { c with
    instructionAffirmsPending :=
      fun i => if i = id then c.instructionAffirmsPending i + n
               else c.instructionAffirmsPending i }

/-- `unsafe_withdraw_instruction_affirmation`. -/
def unsafeWithdrawInstructionAffirmation (ex : Externals E) (cfg : Config)
    (c : Chain E) (id : Nat) (portfolios : List Nat)
    (fungibleTransfers : Nat) (nftsTransfers : Option Nat) :
    Except Err (Nat × Chain E) := do
  let _ ← ensurePortfoliosAndAffirmationStatus ex c id [.affirmed]
    (btOfList portfolios)
  let res ←
    filteredLegs cfg c id (btOfList portfolios) fungibleTransfers nftsTransfers
  let c1 ← withdrawLegsLoop ex id c res.2
  .ok (res.1,
    bumpAffirmsPending id (btOfList portfolios).length
      (markWithdrawn id c1 (btOfList portfolios)))

/-- The entry point `withdraw_affirmation` (scheduler cancellation for
`SettleOnAffirmation` instructions is outside the storage model). -/
def withdrawAffirmation (ex : Externals E) (cfg : Config) (c : Chain E)
    (id : Nat) (portfolios : List Nat) (maxLegsCount : Nat) :
    Except Err (Chain E) := do
  let _ ← ensureInstructionValidity c id false
  let (_, c1) ←
    unsafeWithdrawInstructionAffirmation ex cfg c id portfolios maxLegsCount none
  .ok c1

/-- `unsafe_unclaim_receipts`: reset the used flag of every receipt backing
a leg in state `ExecutionToBeSkipped`. -/
def unclaimReceipts (id : Nat) : Chain E → List (Nat × LegV2) → Chain E
  | c, [] => c
  | c, (legId, _) :: rest =>
      match c.instructionLegStatus id legId with
      | .executionToBeSkipped signer receiptUid =>
          unclaimReceipts id
            { c with receiptsUsed := update2 c.receiptsUsed signer receiptUid false }
            rest
      | _ => unclaimReceipts id c rest

/-- `unchecked_release_locks`: best-effort unlock of every leg in state
`ExecutionPending` (errors ignored, statuses untouched). -/
def uncheckedReleaseLocks (ex : Externals E) (id : Nat) :
    Chain E → List (Nat × LegV2) → Chain E
  | c, [] => c
  | c, (legId, leg) :: rest =>
      match c.instructionLegStatus id legId with
      | .executionPending =>
          uncheckedReleaseLocks ex id
            { c with ext := (unlockViaLeg ex leg c.ext).getD c.ext } rest
      | _ => uncheckedReleaseLocks ex id c rest

/-- The transfer loop of `release_asset_locks_and_transfer_pending_legs`:
transfer each `ExecutionPending` leg; the first failing leg id is
reported for rollback. -/
def transferPendingLegs (ex : Externals E) (id : Nat) :
    Chain E → List (Nat × LegV2) → Chain E × Except Nat Unit
  | c, [] => (c, .ok ())
  | c, (legId, leg) :: rest =>
      if c.instructionLegStatus id legId = .executionPending then
        match leg.asset with
        | .fungible ticker amount =>
            match ex.transferFungible leg.from_ leg.to_ ticker amount c.ext with
            | none => (c, .error legId)
            | some e => transferPendingLegs ex id { c with ext := e } rest
        | .nonFungible nfts =>
            match ex.transferNFTs leg.from_ leg.to_ nfts c.ext with
            | none => (c, .error legId)
            | some e => transferPendingLegs ex id { c with ext := e } rest
      else transferPendingLegs ex id c rest

/-- `release_asset_locks_and_transfer_pending_legs`: release remaining
locks, then transfer every pending leg; an `error legId` outcome makes the
surrounding storage transaction roll back. -/
def releaseAssetLocksAndTransferPendingLegs (ex : Externals E) (id : Nat)
    (instructionLegs : List (Nat × LegV2)) (c : Chain E) :
    Chain E × Except Nat Unit :=
  transferPendingLegs ex id (uncheckedReleaseLocks ex id c instructionLegs)
    instructionLegs

/-- The venue re-check loop of `execute_instruction`: walking the legs,
each distinct ticker is checked once against venue filtering. -/
def venueCheckLoop (c : Chain E) (venueId : Nat) :
    List (Nat × LegV2) → List Nat → Bool
  | [], _ => true
  | (_, leg) :: rest, tickers =>
      let ticker := leg.asset.tickerAndAmount.1
      if ticker ∈ tickers then venueCheckLoop c venueId rest tickers
      else
        if c.venueFiltering ticker ∧ ¬ c.venueAllowList ticker venueId then
          false
        else venueCheckLoop c venueId rest (btInsert ticker tickers)

/-- `execute_instruction`.  Unlike the `Except`-style entry points this
returns a state in the error cases too: its caller
(`execute_instruction_retryable`) keeps the receipt-unclaiming writes and
the events of a failed execution; only the transactional transfer unit is
rolled back. -/
def executeInstruction (ex : Externals E) (c : Chain E) (id : Nat) :
    Chain E × Except Err Nat :=
  if c.instructionAffirmsPending id ≠ 0 then (c, .error .instructionFailed)
  else
    let details := c.details id
    if c.instructionStatuses id ≠ .pending then (c, .error .instructionNotPending)
    else
      let instructionLegs := executionOrder c id
      if ¬ venueCheckLoop c details.venueId instructionLegs [] then
        (c, .error .unauthorizedVenue)
      else
        let outcome := releaseAssetLocksAndTransferPendingLegs ex id instructionLegs c
        match outcome.2 with
        | .ok _ => (outcome.1, .ok instructionLegs.length)
        | .error _legId =>
            (unclaimReceipts id c instructionLegs, .error .instructionFailed)

/-- `prune_instruction`. -/
def pruneInstruction (c : Chain E) (id : Nat) (executed : Bool) : Chain E :=
  let drained := drainInstructionLegs c id
  let legs := drained.1
  let c1 := drained.2
  let details := c1.details id
  let counterParties := btOfList (legs.map (fun p => p.2.from_) ++ legs.map (fun p => p.2.to_))
  let c2 := { c1 with
    instructionDetails := fun i => if i = id then none else c1.instructionDetails i,
    venueInstructions :=
      update2 c1.venueInstructions details.venueId id false,
    instructionLegStatus :=
      fun i l => if i = id then .pendingTokenLock else c1.instructionLegStatus i l,
    instructionAffirmsPending :=
      fun i => if i = id then 0 else c1.instructionAffirmsPending i,
    affirmsReceived :=
      fun i p => if i = id then .unknown else c1.affirmsReceived i p,
    instructionStatuses :=
      fun i => if i = id then
                 (if executed then .success c1.blockNumber else .rejected c1.blockNumber)
               else c1.instructionStatuses i }
  { c2 with
    userAffirmations :=
      fun p i => if p ∈ counterParties ∧ i = id then .unknown
                 else c2.userAffirmations p i }

/-- `execute_instruction_retryable`: prune on success, mark `Failed`
(without pruning) on error. -/
def executeInstructionRetryable (ex : Externals E) (c : Chain E) (id : Nat) :
    Chain E × Except Err Nat :=
  let result := executeInstruction ex c id
  match result.2 with
  | .ok n => (pruneInstruction result.1 id true, .ok n)
  | .error e =>
      if (result.1.instructionDetails id).isSome then
        ({ result.1 with
           instructionStatuses :=
             fun i => if i = id then .failed else result.1.instructionStatuses i },
         .error e)
      else (result.1, .error e)

/-- `base_execute_scheduled_instruction`: the root-dispatched scheduled
execution; a failure is only reported through the
`FailedToExecuteInstruction` event, returned here as the optional error. -/
def baseExecuteScheduledInstruction (ex : Externals E) (c : Chain E)
    (id : Nat) : Chain E × Option Err :=
  ((executeInstructionRetryable ex c id).1,
   match (executeInstructionRetryable ex c id).2 with
   | .ok _ => none
   | .error e => some e)

/-- The entry point `execute_manual_instruction` (portfolio custody and
origin permission are the external collaborators; `did` is the caller's
identity). -/
def executeManualInstruction (ex : Externals E) (c : Chain E) (id : Nat)
    (legsCount : Nat) (portfolio : Option Nat) (did : Nat) :
    Except Err (Chain E) := do
  let instructionDetails ← ensureInstructionValidity c id true
  let instructionLegs := getInstructionLegs c id
  match portfolio with
  | some portfolio =>
      if ¬ ex.custody portfolio then throw .externalError
      else if ¬ instructionLegs.any
          (fun p => p.2.from_ = portfolio ∨ p.2.to_ = portfolio) then
        throw .callerIsNotAParty
      else pure ()
  | none =>
      let _ ← venueForManagement c instructionDetails.venueId did
      pure ()
  if instructionLegs.length ≤ legsCount then pure ()
  else throw .legCountTooSmall
  match (executeInstructionRetryable ex c id).2 with
  | .ok _ => .ok (executeInstructionRetryable ex c id).1
  | .error e => .error e

/-- `InstructionInfo`: the distinct counter-parties (a `BTreeSet`, here a
sorted-unique list) and the fungible/non-fungible transfer counts. -/
structure InstructionInfo where
  parties : List Nat
  transferData : TransferData
  deriving DecidableEq, Repr

/-- `ensure_venue_filtering`: when the ticker is newly seen and venue
filtering is enabled for it, the venue must be allow-listed; the ticker is
recorded as seen either way. -/
def ensureVenueFiltering (c : Chain E) (tickers : List Nat)
    (ticker venueId : Nat) : Except Err (List Nat) :=
  if ticker ∉ tickers ∧ c.venueFiltering ticker then
    if c.venueAllowList ticker venueId then .ok (btInsert ticker tickers)
    else .error .unauthorizedVenue
  else .ok (btInsert ticker tickers)

/-- The leg loop of `ensure_valid_legs`, accumulating the party set, the
seen-ticker set and the transfer counts.  The NFT pallet's
`ensure_within_nfts_transfer_limits` and `ensure_no_duplicate_nfts` are
external; the former is the `nftLimitsOk` oracle, the latter is duplicate
freedom of the NFT id list. -/
def ensureValidLegsLoop (ex : Externals E) (c : Chain E) (venueId : Nat) :
    List LegV2 → List Nat → List Nat → Nat → Nat →
    Except Err (List Nat × Nat × Nat)
  | [], parties, _, fungibleTransfers, nftsTransfers =>
      .ok (parties, fungibleTransfers, nftsTransfers)
  | leg :: rest, parties, tickers, fungibleTransfers, nftsTransfers => do
      if leg.from_ = leg.to_ then throw .sameSenderReceiver
      let parties1 := btInsert leg.to_ (btInsert leg.from_ parties)
      match leg.asset with
      | .fungible ticker amount => do
          if amount = 0 then throw .zeroAmount
          let tickers1 ← ensureVenueFiltering c tickers ticker venueId
          ensureValidLegsLoop ex c venueId rest parties1 tickers1
            (fungibleTransfers + 1) nftsTransfers
      | .nonFungible nfts => do
          if ¬ ex.nftLimitsOk nfts then throw .maxNumberOfNFTsPerLegExceeded
          let tickers1 ← ensureVenueFiltering c tickers nfts.ticker venueId
          if ¬ nfts.ids.Nodup then throw .duplicatedNFTId
          ensureValidLegsLoop ex c venueId rest parties1 tickers1
            fungibleTransfers (nftsTransfers + nfts.ids.length)

/-- The pure party-set accumulation of `ensure_valid_legs`: fold each
leg's sender and receiver into the `BTreeSet` of counter-parties. -/
def partiesFold (acc : List Nat) : List LegV2 → List Nat
  | [] => acc
  | leg :: rest => partiesFold (btInsert leg.to_ (btInsert leg.from_ acc)) rest

/-- `ensure_valid_legs`. -/
def ensureValidLegs (ex : Externals E) (cfg : Config) (c : Chain E)
    (legs : List LegV2) (venueId : Nat) : Except Err InstructionInfo := do
  let res ← ensureValidLegsLoop ex c venueId legs [] [] 0 0
  if res.2.2 ≤ cfg.maxNumberOfNFTs then
    if res.2.1 ≤ cfg.maxNumberOfFungibleAssets then
      .ok ⟨res.1, ⟨res.2.1, res.2.2⟩⟩
    else .error .instructionHasTooManyLegs
  else .error .maxNumberOfNFTsExceeded

/-- Seed a `Pending` user affirmation for every counter-party. -/
def seedUserAffirmations (id : Nat) : Chain E → List Nat → Chain E
  | c, [] => c
  | c, counterParty :: rest =>
      seedUserAffirmations id
        { c with
          userAffirmations := update2 c.userAffirmations counterParty id .pending }
        rest

/-- Insert `legs` under consecutive leg ids starting at `start` into an
association table. -/
def insertEnumerated {α : Type} (start : Nat) (legs : List α)
    (table : List (Nat × α)) : List (Nat × α) :=
  match legs with
  | [] => table
  | leg :: rest => insertEnumerated (start + 1) rest (assocInsert start leg table)

/-- `legs.into_iter().map(Leg::try_from).collect::<Result<Vec<Leg>, _>>()`. -/
def legsToLegacy : List LegV2 → Except String (List Leg)
  | [] => .ok []
  | leg :: rest => do
      let legacy ← Leg.tryFromLegV2 leg
      let legacyRest ← legsToLegacy rest
      .ok (legacy :: legacyRest)

/-- The write set of `base_add_instruction` common to both leg encodings:
advance the counter, set status `Pending`, seed the per-party pending
affirmations, store the instruction record, the pending count (= number of
distinct counter-parties), the venue index entry and the optional memo. -/
def addInstructionWrites (c : Chain E) (instructionId venueId : Nat)
    (instruction : Instruction) (parties : List Nat) (memo : Option Nat) :
    Chain E :=
  let c1 := { c with
    instructionCounter := c.instructionCounter + 1,
    instructionStatuses :=
      fun i => if i = instructionId then .pending else c.instructionStatuses i }
  let c2 := seedUserAffirmations instructionId c1 parties
  let c3 := { c2 with
    instructionDetails :=
      fun i => if i = instructionId then some instruction
               else c2.instructionDetails i,
    instructionAffirmsPending :=
      fun i => if i = instructionId then parties.length
               else c2.instructionAffirmsPending i,
    venueInstructions := update2 c2.venueInstructions venueId instructionId true }
  match memo with
  | some m => { c3 with
      instructionMemos :=
        fun i => if i = instructionId then some m else c3.instructionMemos i }
  | none => c3

/-- `base_add_instruction`.  Deferred scheduling of `SettleOnBlock`
instructions goes through the scheduler bridge (fire-and-forget, failures
downgraded to an event) and is outside the storage model.  All validation
errors commit nothing, per the call-level transaction boundary. -/
def baseAddInstruction (ex : Externals E) (cfg : Config) (c : Chain E)
    (did venueId : Nat) (settlementType : SettlementType)
    (tradeDate valueDate : Option Nat) (legs : List LegV2)
    (memo : Option Nat) (emitDeprecatedEvent : Bool) :
    Except Err (Nat × Chain E) := do
  let _ ← (match settlementType with
    | .settleOnBlock blockNumber =>
        if blockNumber > c.blockNumber then .ok () else .error .settleOnPastBlock
    | _ => (.ok () : Except Err Unit))
  let _ ← (match tradeDate, valueDate with
    | some tradeDate, some valueDate =>
        if valueDate ≥ tradeDate then .ok () else .error .instructionDatesInvalid
    | _, _ => (.ok () : Except Err Unit))
  let _ ← venueForManagement c venueId did
  let instructionInfo ← ensureValidLegs ex cfg c legs venueId
  let _ ← (if c.instructionCounter + 1 < 2 ^ 64 then .ok ()
      else .error .counterOverflow : Except Err Unit)
  let instructionId := c.instructionCounter
  let c4 := addInstructionWrites c instructionId venueId
    { instructionId := instructionId, venueId := venueId,
      settlementType := settlementType, createdAt := some c.timestamp,
      tradeDate := tradeDate, valueDate := valueDate }
    instructionInfo.parties memo
  if emitDeprecatedEvent then
    match legsToLegacy legs with
    | .error _ => throw .invalidLegAsset
    | .ok legacyLegs =>
        .ok (instructionId,
          { c4 with
            instructionLegs :=
              fun i => if i = instructionId then
                         insertEnumerated 0 legacyLegs (c4.instructionLegs i)
                       else c4.instructionLegs i })
  else
    .ok (instructionId,
      { c4 with
        instructionLegsV2 :=
          fun i => if i = instructionId then
                     insertEnumerated 0 legs (c4.instructionLegsV2 i)
                   else c4.instructionLegsV2 i })

/-- The signed receipt message for a leg (`Receipt { receipt_uid, from, to,
asset, amount }`). -/
def receiptMsg (leg : LegV2) (receiptUid : Nat) : Receipt :=
  { receiptUid := receiptUid, from_ := leg.from_, to_ := leg.to_,
    asset := leg.asset.tickerAndAmount.1, amount := leg.asset.tickerAndAmount.2 }

/-- The receipt-validation loop of `base_affirm_with_receipts`: signer
authorized by the venue, receipt unused, leg fungible, leg sender among
the affirming portfolios, asset not an on-chain token
(`pallet_asset::Tokens`), signature valid. -/
def checkReceipts (ex : Externals E) (c : Chain E) (id venueId : Nat)
    (portfolioSet : List Nat) : List ReceiptDetails → Except Err Unit
  | [] => .ok ()
  | receipt :: rest =>
      if ¬ c.venueSigners venueId receipt.signer then .error .unauthorizedSigner
      else if c.receiptsUsed receipt.signer receipt.receiptUid then
        .error .receiptAlreadyClaimed
      else
        let leg := getInstructionLeg c id receipt.legId
        match leg.asset with
        | .nonFungible _nfts => .error .receiptForNonFungibleAsset
        | .fungible _ _ =>
            if ¬ leg.from_ ∈ portfolioSet then .error .portfolioMismatch
            else if c.tokens leg.asset.tickerAndAmount.1 then
              .error .unauthorizedVenue
            else if ¬ ex.verifySig receipt.signature
                (receiptMsg leg receipt.receiptUid) receipt.signer then
              .error .invalidSignature
            else checkReceipts ex c id venueId portfolioSet rest

/-- The locking/receipt loop of `base_affirm_with_receipts`'s
`with_transaction` block: a leg with a matching receipt is marked
`ExecutionToBeSkipped` (no lock taken); other filtered legs are locked and
marked `ExecutionPending`; a lock failure aborts with
`FailedToLockTokens`. -/
def receiptsLockLoop (ex : Externals E) (id : Nat)
    (receiptDetails : List ReceiptDetails) :
    Chain E → List (Nat × LegV2) → Except Err (Chain E)
  | c, [] => .ok c
  | c, (legId, legDetails) :: rest =>
      match receiptDetails.find? (fun receipt => receipt.legId = legId) with
      | some receipt =>
          receiptsLockLoop ex id receiptDetails
            { c with
              instructionLegStatus :=
                update2 c.instructionLegStatus id legId
                  (.executionToBeSkipped receipt.signer receipt.receiptUid) }
            rest
      | none =>
          match lockViaLeg ex legDetails c.ext with
          | none => .error .failedToLockTokens
          | some e =>
              receiptsLockLoop ex id receiptDetails
                { c with
                  ext := e,
                  instructionLegStatus :=
                    update2 c.instructionLegStatus id legId .executionPending }
                rest

/-- Mark every supplied receipt used. -/
def markReceiptsUsed : Chain E → List ReceiptDetails → Chain E
  | c, [] => c
  | c, receipt :: rest =>
      markReceiptsUsed
        { c with
          receiptsUsed :=
            update2 c.receiptsUsed receipt.signer receipt.receiptUid true }
        rest

/-- `base_affirm_with_receipts`. -/
def baseAffirmWithReceipts (ex : Externals E) (cfg : Config) (c : Chain E)
    (id : Nat) (receiptDetails : List ReceiptDetails)
    (portfolios : List Nat) (fungibleTransfers : Nat) :
    Except Err (Nat × Chain E) := do
  let instructionDetails ← ensureInstructionValidity c id false
  let _ ← (if (receiptDetails.map fun r => (r.signer, r.receiptUid)).dedup.length
        = receiptDetails.length then .ok ()
      else .error .receiptAlreadyClaimed : Except Err Unit)
  let _ ← ensurePortfoliosAndAffirmationStatus ex c id [.pending]
    (btOfList portfolios)
  let _ ← checkReceipts ex c id instructionDetails.venueId (btOfList portfolios)
    receiptDetails
  let res ← filteredLegs cfg c id (btOfList portfolios) fungibleTransfers none
  let c1 ← receiptsLockLoop ex id receiptDetails c res.2
  .ok (res.1,
    setAffirmsPending id
      (c1.instructionAffirmsPending id - (btOfList portfolios).length)
      (markAffirmed id (markReceiptsUsed c1 receiptDetails)
        (btOfList portfolios)))

/-- The entry point `affirm_with_receipts` (scheduling on completion is
outside the storage model). -/
def affirmWithReceipts (ex : Externals E) (cfg : Config) (c : Chain E)
    (id : Nat) (receiptDetails : List ReceiptDetails)
    (portfolios : List Nat) (maxLegsCount : Nat) : Except Err (Chain E) := do
  let (_, c1) ←
    baseAffirmWithReceipts ex cfg c id receiptDetails portfolios maxLegsCount
  .ok c1

/-- The entry point `change_receipt_validity`: unconditionally record the
used flag for the caller's signing account and the given uid as the
negation of `validity` (origin permission is the external identity
collaborator; no other check is performed). -/
def changeReceiptValidity (c : Chain E) (signer receiptUid : Nat)
    (validity : Bool) : Chain E :=
  { c with receiptsUsed := update2 c.receiptsUsed signer receiptUid (!validity) }

end Operations

section MonadHelpers

theorem ebindOk {ε α β : Type} (a : α) (f : α → Except ε β) :
    (Except.ok a >>= f) = f a := rfl

theorem ebindErr {ε α β : Type} (e : ε) (f : α → Except ε β) :
    ((Except.error e : Except ε α) >>= f) = Except.error e := rfl

theorem epureEq {ε α : Type} (a : α) :
    (pure a : Except ε α) = Except.ok a := rfl

theorem ethrowEq {ε α : Type} (e : ε) :
    (throw e : Except ε α) = Except.error e := rfl

end MonadHelpers

section SortLemmas

theorem mem_sortedInsertLeg {p q : Nat × LegV2} {l : List (Nat × LegV2)} :
    q ∈ sortedInsertLeg p l ↔ q = p ∨ q ∈ l := by
  induction l with
  | nil => simp [sortedInsertLeg]
  | cons r rest ih =>
      simp only [sortedInsertLeg]
      by_cases h : p.1 < r.1
      · simp [h, List.mem_cons]
      · simp [h, List.mem_cons, ih]
        tauto

theorem sortedInsertLeg_perm (p : Nat × LegV2) (l : List (Nat × LegV2)) :
    (sortedInsertLeg p l).Perm (p :: l) := by
  induction l with
  | nil => simp [sortedInsertLeg]
  | cons r rest ih =>
      simp only [sortedInsertLeg]
      by_cases h : p.1 < r.1
      · simp [h]
      · simp only [if_neg h]
        exact (ih.cons r).trans (List.Perm.swap p r rest)

theorem sortedInsertLeg_sorted {p : Nat × LegV2} {l : List (Nat × LegV2)}
    (h : l.Pairwise (fun a b => a.1 ≤ b.1)) :
    (sortedInsertLeg p l).Pairwise (fun a b => a.1 ≤ b.1) := by
  induction l with
  | nil => simp [sortedInsertLeg]
  | cons r rest ih =>
      rcases List.pairwise_cons.mp h with ⟨hr, hrest⟩
      simp only [sortedInsertLeg]
      by_cases hpr : p.1 < r.1
      · rw [if_pos hpr]
        refine List.pairwise_cons.mpr ⟨?_, h⟩
        intro q hq
        rcases List.mem_cons.mp hq with h1 | h1
        · rw [h1]; omega
        · have := hr q h1; omega
      · rw [if_neg hpr]
        refine List.pairwise_cons.mpr ⟨?_, ih hrest⟩
        intro q hq
        rcases mem_sortedInsertLeg.mp hq with h1 | h1
        · rw [h1]; omega
        · exact hr q h1

theorem sortLegsById_perm (l : List (Nat × LegV2)) :
    (sortLegsById l).Perm l := by
  induction l with
  | nil => simp [sortLegsById]
  | cons p rest ih =>
      simp only [sortLegsById]
      exact (sortedInsertLeg_perm p (sortLegsById rest)).trans (ih.cons p)

theorem sortLegsById_sorted (l : List (Nat × LegV2)) :
    (sortLegsById l).Pairwise (fun a b => a.1 ≤ b.1) := by
  induction l with
  | nil => simp [sortLegsById]
  | cons p rest ih => exact sortedInsertLeg_sorted ih

end SortLemmas

section WitnessStates

/-- An all-defaults chain, used as the base of the concrete states in the
witness theorems. -/
def emptyChain : Chain Nat :=
  { venueInfo := fun _ => none
    venueSigners := fun _ _ => false
    venueInstructions := fun _ _ => false
    instructionDetails := fun _ => none
    instructionLegs := fun _ => []
    instructionLegsV2 := fun _ => []
    instructionLegStatus := fun _ _ => .pendingTokenLock
    instructionAffirmsPending := fun _ => 0
    affirmsReceived := fun _ _ => .unknown
    userAffirmations := fun _ _ => .unknown
    receiptsUsed := fun _ _ => false
    venueFiltering := fun _ => false
    venueAllowList := fun _ _ => false
    instructionCounter := 1
    instructionMemos := fun _ => none
    instructionStatuses := fun _ => .unknown
    tokens := fun _ => false
    blockNumber := 5
    timestamp := 100
    ext := 0 }

/-- Externals for the witness theorems: every collaborator call succeeds
and leaves the external state unchanged; every signature verifies; NFT
leg limits always pass. -/
def happyExternals : Externals Nat :=
  { lockLeg := fun _ e => some e
    unlockLeg := fun _ e => some e
    transferFungible := fun _ _ _ _ e => some (e + 1)
    transferNFTs := fun _ _ _ e => some (e + 1)
    custody := fun _ => true
    verifySig := fun _ _ _ => true
    nftLimitsOk := fun _ => true }

/-- Externals whose transfers always fail (for the atomicity witnesses). -/
def failingTransferExternals : Externals Nat :=
  { happyExternals with
    transferFungible := fun _ _ _ _ _ => none
    transferNFTs := fun _ _ _ _ => none }

/-- A small config for the witness theorems. -/
def witnessConfig : Config :=
  { maxNumberOfFungibleAssets := 10
    maxNumberOfNFTsPerLeg := 10
    maxNumberOfNFTs := 100 }

end WitnessStates

section Claims

/-- **C5.** The legacy and unified leg encodings are losslessly
interconvertible for fungible legs: converting a legacy `Leg` to a `LegV2`
and back yields `Ok` of the original leg, and converting a `LegV2` whose
asset is `NonFungible` to a legacy `Leg` always fails. -/
theorem c5_leg_conversion_roundtrip :
    (∀ leg : Leg, Leg.tryFromLegV2 (LegV2.ofLeg leg) = .ok leg) ∧
    (∀ (legV2 : LegV2) (nfts : NFTs), legV2.asset = .nonFungible nfts →
      Leg.tryFromLegV2 legV2 = .error "InvalidLegAsset") := by
  constructor
  · intro leg; rfl
  · intro legV2 nfts h
    simp [Leg.tryFromLegV2, h]

/-- Witness for C5 at concrete legs. -/
theorem c5_leg_conversion_roundtrip_witness :
    Leg.tryFromLegV2 (LegV2.ofLeg ⟨1, 2, 3, 4⟩) = .ok ⟨1, 2, 3, 4⟩ ∧
    Leg.tryFromLegV2 ⟨1, 2, .nonFungible ⟨3, [7]⟩⟩ = .error "InvalidLegAsset" :=
  ⟨c5_leg_conversion_roundtrip.1 ⟨1, 2, 3, 4⟩,
   c5_leg_conversion_roundtrip.2 ⟨1, 2, .nonFungible ⟨3, [7]⟩⟩ ⟨3, [7]⟩ rfl⟩

/-- **C3.** Execution processes an instruction's legs in ascending leg-id
order regardless of the order in which legs are yielded from storage: the
leg list that `execute_instruction` iterates (`executionOrder`, the input
of both the lock release and the transfer loop) is sorted by leg id and is
a permutation of the stored legs. -/
theorem c3_execution_order_sorted :
    ∀ (E : Type) (c : Chain E) (id : Nat),
      (executionOrder c id).Pairwise (fun a b => a.1 ≤ b.1) ∧
      (executionOrder c id).Perm (getInstructionLegs c id) := by
  intro E c id
  exact ⟨sortLegsById_sorted _, sortLegsById_perm _⟩

/-- **C9.** `change_receipt_validity` always succeeds for a caller passing
the (external) permission check and unconditionally sets the used flag of
`(signer, receipt_uid)` to the negation of `validity`; no other storage —
in particular no leg status, so also not the claimed/unclaimed state of any
live instruction leg — is read or written. -/
theorem c9_change_receipt_validity :
    ∀ (E : Type) (c : Chain E) (signer receiptUid : Nat) (validity : Bool),
      (changeReceiptValidity c signer receiptUid validity).receiptsUsed
          signer receiptUid = !validity ∧
      (∀ s u, ¬(s = signer ∧ u = receiptUid) →
        (changeReceiptValidity c signer receiptUid validity).receiptsUsed s u
          = c.receiptsUsed s u) ∧
      (changeReceiptValidity c signer receiptUid validity).instructionLegStatus
        = c.instructionLegStatus ∧
      (changeReceiptValidity c signer receiptUid validity).instructionStatuses
        = c.instructionStatuses ∧
      (changeReceiptValidity c signer receiptUid validity).instructionAffirmsPending
        = c.instructionAffirmsPending ∧
      (changeReceiptValidity c signer receiptUid validity).ext = c.ext := by
  intro E c signer receiptUid validity
  refine ⟨?_, ?_, rfl, rfl, rfl, rfl⟩
  · simp [changeReceiptValidity, update2]
  · intro s u h
    simp only [changeReceiptValidity, update2]
    rw [if_neg h]

/-- Witness for C9 at a concrete state: the flag of a receipt currently
claimed by a live leg is still overwritten. -/
theorem c9_change_receipt_validity_witness :
    (changeReceiptValidity
        { emptyChain with
          instructionLegStatus := fun _ _ => .executionToBeSkipped 8 3,
          receiptsUsed := fun _ _ => true }
        8 3 true).receiptsUsed 8 3 = false ∧
    (changeReceiptValidity
        { emptyChain with
          instructionLegStatus := fun _ _ => .executionToBeSkipped 8 3,
          receiptsUsed := fun _ _ => true }
        8 3 true).receiptsUsed 9 3 = true := by
  refine ⟨(c9_change_receipt_validity _ _ 8 3 true).1, ?_⟩
  exact (c9_change_receipt_validity _ _ 8 3 true).2.1 9 3 (by simp)

end Claims

section UnclaimLemmas

variable {E : Type}

/-- `unsafe_unclaim_receipts` writes only `ReceiptsUsed`; every other
storage component is untouched. -/
theorem unclaimReceipts_fields (id : Nat) (c : Chain E)
    (legs : List (Nat × LegV2)) :
    (unclaimReceipts id c legs).ext = c.ext ∧
    (unclaimReceipts id c legs).instructionDetails = c.instructionDetails ∧
    (unclaimReceipts id c legs).instructionLegs = c.instructionLegs ∧
    (unclaimReceipts id c legs).instructionLegsV2 = c.instructionLegsV2 ∧
    (unclaimReceipts id c legs).instructionAffirmsPending
      = c.instructionAffirmsPending ∧
    (unclaimReceipts id c legs).instructionLegStatus = c.instructionLegStatus ∧
    (unclaimReceipts id c legs).instructionStatuses = c.instructionStatuses ∧
    (unclaimReceipts id c legs).userAffirmations = c.userAffirmations := by
  induction legs generalizing c with
  | nil => exact ⟨rfl, rfl, rfl, rfl, rfl, rfl, rfl, rfl⟩
  | cons p rest ih =>
      cases h : c.instructionLegStatus id p.1 with
      | executionToBeSkipped signer receiptUid =>
          simpa [unclaimReceipts, h] using
            ih { c with
              receiptsUsed := update2 c.receiptsUsed signer receiptUid false }
      | pendingTokenLock => simpa [unclaimReceipts, h] using ih c
      | executionPending => simpa [unclaimReceipts, h] using ih c

/-- `unsafe_unclaim_receipts` never re-marks a receipt as used. -/
theorem unclaimReceipts_mono_false (id : Nat) (c : Chain E)
    (legs : List (Nat × LegV2)) (s u : Nat)
    (h : c.receiptsUsed s u = false) :
    (unclaimReceipts id c legs).receiptsUsed s u = false := by
  induction legs generalizing c with
  | nil => exact h
  | cons p rest ih =>
      cases hst : c.instructionLegStatus id p.1 with
      | executionToBeSkipped signer receiptUid =>
          simp only [unclaimReceipts, hst]
          refine ih _ ?_
          simp only [update2]
          by_cases hk : s = signer ∧ u = receiptUid
          · rw [if_pos hk]
          · rw [if_neg hk]; exact h
      | pendingTokenLock => simp only [unclaimReceipts, hst]; exact ih _ h
      | executionPending => simp only [unclaimReceipts, hst]; exact ih _ h

/-- After `unsafe_unclaim_receipts`, every receipt backing a leg in state
`ExecutionToBeSkipped` is marked unused. -/
theorem unclaimReceipts_clears (id : Nat) (c : Chain E)
    (legs : List (Nat × LegV2)) (s u : Nat)
    (h : ∃ p ∈ legs, c.instructionLegStatus id p.1 = .executionToBeSkipped s u) :
    (unclaimReceipts id c legs).receiptsUsed s u = false := by
  induction legs generalizing c with
  | nil => simp at h
  | cons p rest ih =>
      rcases h with ⟨q, hq, hstq⟩
      rcases List.mem_cons.mp hq with h1 | h1
      · subst h1
        simp only [unclaimReceipts, hstq]
        refine unclaimReceipts_mono_false id _ rest s u ?_
        simp [update2]
      · cases hst : c.instructionLegStatus id p.1 with
        | executionToBeSkipped signer receiptUid =>
            simp only [unclaimReceipts, hst]
            exact ih _ ⟨q, h1, hstq⟩
        | pendingTokenLock =>
            simp only [unclaimReceipts, hst]
            exact ih _ ⟨q, h1, hstq⟩
        | executionPending =>
            simp only [unclaimReceipts, hst]
            exact ih _ ⟨q, h1, hstq⟩

end UnclaimLemmas

section ClaimC1

/-- **C1.** If any single leg's transfer fails during an execution attempt
(the transactional unit reports a failing leg id), then the attempt
reports `InstructionFailed`, every external-state change of the attempt
(balances, NFT ownership, lock releases) is rolled back, the stored status
becomes `Failed`, and the instruction is not pruned: its legs, details,
leg statuses and pending-affirmations bookkeeping all remain. -/
theorem c1_failed_leg_atomic_rollback :
    ∀ (E : Type) (ex : Externals E) (c : Chain E) (id legId : Nat),
      c.instructionAffirmsPending id = 0 →
      c.instructionStatuses id = .pending →
      venueCheckLoop c (c.details id).venueId (executionOrder c id) [] = true →
      (c.instructionDetails id).isSome = true →
      (releaseAssetLocksAndTransferPendingLegs ex id (executionOrder c id) c).2
        = .error legId →
      (executeInstructionRetryable ex c id).2 = .error .instructionFailed ∧
      (executeInstructionRetryable ex c id).1.ext = c.ext ∧
      (executeInstructionRetryable ex c id).1.instructionStatuses id = .failed ∧
      (executeInstructionRetryable ex c id).1.instructionLegsV2 id
        = c.instructionLegsV2 id ∧
      (executeInstructionRetryable ex c id).1.instructionLegs id
        = c.instructionLegs id ∧
      (executeInstructionRetryable ex c id).1.instructionDetails id
        = c.instructionDetails id ∧
      (executeInstructionRetryable ex c id).1.instructionAffirmsPending id
        = c.instructionAffirmsPending id ∧
      (∀ l, (executeInstructionRetryable ex c id).1.instructionLegStatus id l
        = c.instructionLegStatus id l) := by
  intro E ex c id legId h0 hs hv hsome hfail
  have hexec : executeInstruction ex c id
      = (unclaimReceipts id c (executionOrder c id), .error .instructionFailed) := by
    unfold executeInstruction
    rw [if_neg (by simp [h0])]
    rw [if_neg (by simp [hs])]
    rw [if_neg (by simp [hv])]
    simp only [hfail]
  obtain ⟨hext, hdet, hlegs, hlegsV2, hpend, hlegst, hstat, _⟩ :=
    unclaimReceipts_fields id c (executionOrder c id)
  have hretry : executeInstructionRetryable ex c id
      = ({ unclaimReceipts id c (executionOrder c id) with
           instructionStatuses :=
             fun i => if i = id then .failed
                      else (unclaimReceipts id c (executionOrder c id)).instructionStatuses i },
         .error .instructionFailed) := by
    unfold executeInstructionRetryable
    rw [hexec]
    simp only [hdet, hsome, if_pos]
  rw [hretry]
  refine ⟨rfl, hext, by simp, ?_, ?_, ?_, ?_, ?_⟩
  · simp [hlegsV2]
  · simp [hlegs]
  · simp [hdet]
  · simp [hpend]
  · intro l; simp [hlegst]

/-- A concrete instruction with one affirmed (locked) fungible leg, all
affirmations in, ready to execute. -/
def readyChain : Chain Nat :=
  { emptyChain with
    instructionDetails := fun i =>
      if i = 1 then
        some { instructionId := 1, venueId := 2,
               settlementType := .settleOnAffirmation, createdAt := some 0,
               tradeDate := none, valueDate := none }
      else none,
    instructionStatuses := fun i => if i = 1 then .pending else .unknown,
    instructionLegsV2 := fun i =>
      if i = 1 then [(0, ⟨3, 4, .fungible 7 100⟩)] else [],
    instructionLegStatus := fun i l =>
      if i = 1 ∧ l = 0 then .executionPending else .pendingTokenLock }

/-- Witness for C1: a one-leg instruction whose transfer fails; the
attempt errors with `InstructionFailed`, leaves balances untouched, marks
the instruction `Failed` and keeps its legs. -/
theorem c1_failed_leg_atomic_rollback_witness :
    (executeInstructionRetryable failingTransferExternals readyChain 1).2
      = .error .instructionFailed ∧
    (executeInstructionRetryable failingTransferExternals readyChain 1).1.ext
      = readyChain.ext ∧
    (executeInstructionRetryable failingTransferExternals readyChain 1).1.instructionStatuses 1
      = .failed ∧
    (executeInstructionRetryable failingTransferExternals readyChain 1).1.instructionLegsV2 1
      = readyChain.instructionLegsV2 1 := by
  have h := c1_failed_leg_atomic_rollback Nat failingTransferExternals readyChain 1 0
    (by decide) (by decide) (by decide) (by decide) (by rfl)
  exact ⟨h.1, h.2.1, h.2.2.1, h.2.2.2.1⟩

end ClaimC1

section ClaimC8

variable {E : Type}

/-- If the seen tickers all pass venue filtering but some remaining leg's
ticker does not, the venue re-check loop rejects. -/
theorem venueCheckLoop_false {c : Chain E} {venueId : Nat} :
    ∀ (legs : List (Nat × LegV2)) (tickers : List Nat),
      (∀ t ∈ tickers,
        ¬(c.venueFiltering t = true ∧ c.venueAllowList t venueId = false)) →
      (∃ p ∈ legs, c.venueFiltering p.2.asset.tickerAndAmount.1 = true ∧
          c.venueAllowList p.2.asset.tickerAndAmount.1 venueId = false) →
      venueCheckLoop c venueId legs tickers = false := by
  intro legs
  induction legs with
  | nil => intro tickers _ hbad; simp at hbad
  | cons p rest ih =>
      intro tickers hseen hbad
      simp only [venueCheckLoop]
      by_cases hmem : p.2.asset.tickerAndAmount.1 ∈ tickers
      · rw [if_pos hmem]
        rcases hbad with ⟨q, hq, hqbad⟩
        rcases List.mem_cons.mp hq with h1 | h1
        · exact absurd (h1 ▸ hqbad) (hseen _ hmem)
        · exact ih tickers hseen ⟨q, h1, hqbad⟩
      · rw [if_neg hmem]
        by_cases hhead : c.venueFiltering p.2.asset.tickerAndAmount.1 = true ∧
            c.venueAllowList p.2.asset.tickerAndAmount.1 venueId = false
        · rw [if_pos (by exact ⟨hhead.1, by simp [hhead.2]⟩)]
        · rw [if_neg (by
            intro hcontra
            exact hhead ⟨hcontra.1, by
              rcases hcontra with ⟨_, h2⟩
              simpa using h2⟩)]
          rcases hbad with ⟨q, hq, hqbad⟩
          rcases List.mem_cons.mp hq with h1 | h1
          · exact absurd (h1 ▸ hqbad) hhead
          · refine ih _ ?_ ⟨q, h1, hqbad⟩
            intro t ht
            rcases mem_btInsert.mp ht with h2 | h2
            · exact h2 ▸ hhead
            · exact hseen t h2

/-- **C8.** At execution time the venue authorization is re-checked: if
venue filtering is enabled for the ticker of any leg of the instruction
and the instruction's venue is not on that ticker's allow-list, the
execution attempt fails with `UnauthorizedVenue` and no leg is transferred
(the external state is untouched) — with no hypothesis about the state at
creation time, so in particular when filtering was enabled only after the
instruction was created. -/
theorem c8_venue_filtering_rechecked_at_execution :
    ∀ (E : Type) (ex : Externals E) (c : Chain E) (id t : Nat),
      c.instructionAffirmsPending id = 0 →
      c.instructionStatuses id = .pending →
      (∃ p ∈ executionOrder c id, p.2.asset.tickerAndAmount.1 = t) →
      c.venueFiltering t = true →
      c.venueAllowList t (c.details id).venueId = false →
      (executeInstructionRetryable ex c id).2 = .error .unauthorizedVenue ∧
      (executeInstructionRetryable ex c id).1.ext = c.ext := by
  intro E ex c id t h0 hs hleg hfilt hallow
  have hbad : ∃ p ∈ executionOrder c id,
      c.venueFiltering p.2.asset.tickerAndAmount.1 = true ∧
      c.venueAllowList p.2.asset.tickerAndAmount.1 (c.details id).venueId = false := by
    rcases hleg with ⟨p, hp, hpt⟩
    exact ⟨p, hp, by rw [hpt]; exact hfilt, by rw [hpt]; exact hallow⟩
  have hvc : venueCheckLoop c (c.details id).venueId (executionOrder c id) [] = false :=
    venueCheckLoop_false _ _ (by intro t' ht'; simp at ht') hbad
  have hexec : executeInstruction ex c id = (c, .error .unauthorizedVenue) := by
    unfold executeInstruction
    rw [if_neg (by simp [h0])]
    rw [if_neg (by simp [hs])]
    rw [if_pos (by simp [hvc])]
  unfold executeInstructionRetryable
  rw [hexec]
  by_cases hsome : (c.instructionDetails id).isSome
  · simp [hsome]
  · simp [hsome]

/-- Witness for C8: the instruction of `readyChain` (created while no
filtering was enabled) fails execution once filtering is enabled for its
ticker without allow-listing its venue. -/
theorem c8_venue_filtering_rechecked_witness :
    (executeInstructionRetryable happyExternals
        { readyChain with venueFiltering := fun ticker => ticker == 7 } 1).2
      = .error .unauthorizedVenue ∧
    (executeInstructionRetryable happyExternals
        { readyChain with venueFiltering := fun ticker => ticker == 7 } 1).1.ext
      = readyChain.ext := by
  have h := c8_venue_filtering_rechecked_at_execution Nat happyExternals
    { readyChain with venueFiltering := fun ticker => ticker == 7 } 1 7
    (by decide) (by decide) ⟨(0, ⟨3, 4, .fungible 7 100⟩), by decide, rfl⟩
    (by decide) (by decide)
  exact h

end ClaimC8

section ClaimC2

variable {E : Type}

/-- With a nonzero pending-affirmations counter, `execute_instruction`
fails with `InstructionFailed` before touching anything. -/
theorem executeInstruction_affirms_ne_zero (ex : Externals E) (c : Chain E)
    (id : Nat) (h : c.instructionAffirmsPending id ≠ 0) :
    executeInstruction ex c id = (c, .error .instructionFailed) := by
  unfold executeInstruction
  rw [if_pos h]

/-- With a zero counter but a non-`Pending` status, `execute_instruction`
fails with `InstructionNotPending` before touching anything. -/
theorem executeInstruction_not_pending (ex : Externals E) (c : Chain E)
    (id : Nat) (h0 : c.instructionAffirmsPending id = 0)
    (hs : c.instructionStatuses id ≠ .pending) :
    executeInstruction ex c id = (c, .error .instructionNotPending) := by
  unfold executeInstruction
  rw [if_neg (by simp [h0])]
  rw [if_pos hs]

/-- When `execute_instruction` fails, `execute_instruction_retryable`
reports the same error and keeps the failing state's external part. -/
theorem executeInstructionRetryable_of_error (ex : Externals E)
    {c c1 : Chain E} {id : Nat} {e : Err}
    (hexec : executeInstruction ex c id = (c1, .error e)) :
    (executeInstructionRetryable ex c id).2 = .error e ∧
    (executeInstructionRetryable ex c id).1.ext = c1.ext := by
  unfold executeInstructionRetryable
  rw [hexec]
  by_cases hsome : (c1.instructionDetails id).isSome
  · simp [hsome]
  · simp [hsome]

/-- **C2 (amended).** Provided an execution attempt reaches the execution
stage: a nonzero pending-affirmations counter makes it fail with
`InstructionFailed` (this check has priority), and with a zero counter a
non-`Pending` status makes it fail with `InstructionNotPending`; the
manual entry point additionally fails with `UnknownInstruction` (not
`InstructionNotPending`) when the status is `Unknown`, since its validity
precheck runs first.  In all failure cases no leg is transferred: the
scheduled path leaves the external state untouched and the manual path
commits nothing when it errors. -/
theorem c2_execution_gating_amended :
    ∀ (E : Type) (ex : Externals E) (c : Chain E) (id : Nat),
      (c.instructionAffirmsPending id ≠ 0 →
        executeInstruction ex c id = (c, .error .instructionFailed) ∧
        (baseExecuteScheduledInstruction ex c id).2 = some .instructionFailed ∧
        (baseExecuteScheduledInstruction ex c id).1.ext = c.ext) ∧
      (c.instructionAffirmsPending id = 0 →
        c.instructionStatuses id ≠ .pending →
        executeInstruction ex c id = (c, .error .instructionNotPending) ∧
        (baseExecuteScheduledInstruction ex c id).2 = some .instructionNotPending ∧
        (baseExecuteScheduledInstruction ex c id).1.ext = c.ext) ∧
      (∀ legsCount portfolio did,
        c.instructionStatuses id = .unknown →
        executeManualInstruction ex c id legsCount portfolio did
          = .error .unknownInstruction) ∧
      (∀ legsCount p did d,
        ensureInstructionValidity c id true = .ok d →
        ex.custody p = true →
        (getInstructionLegs c id).any
          (fun q => q.2.from_ = p ∨ q.2.to_ = p) = true →
        (getInstructionLegs c id).length ≤ legsCount →
        (c.instructionAffirmsPending id ≠ 0 →
          executeManualInstruction ex c id legsCount (some p) did
            = .error .instructionFailed) ∧
        (c.instructionAffirmsPending id = 0 →
          c.instructionStatuses id ≠ .pending →
          executeManualInstruction ex c id legsCount (some p) did
            = .error .instructionNotPending)) := by
  intro E ex c id
  have hsched : ∀ e, executeInstruction ex c id = (c, .error e) →
      (baseExecuteScheduledInstruction ex c id).2 = some e ∧
      (baseExecuteScheduledInstruction ex c id).1.ext = c.ext := by
    intro e hexec
    obtain ⟨h1, h2⟩ := executeInstructionRetryable_of_error ex hexec
    unfold baseExecuteScheduledInstruction
    rw [h1]
    exact ⟨rfl, h2⟩
  have hmanual : ∀ legsCount p did e d,
      ensureInstructionValidity c id true = .ok d →
      ex.custody p = true →
      (getInstructionLegs c id).any
        (fun q => q.2.from_ = p ∨ q.2.to_ = p) = true →
      (getInstructionLegs c id).length ≤ legsCount →
      executeInstruction ex c id = (c, .error e) →
      executeManualInstruction ex c id legsCount (some p) did = .error e := by
    intro legsCount p did e d hval hcust hparty hlen hexec
    obtain ⟨h1, _⟩ := executeInstructionRetryable_of_error ex hexec
    unfold executeManualInstruction
    rw [hval]
    simp only [ebindOk, hcust, hparty, epureEq, ethrowEq]
    rw [if_neg (by simp), if_neg (by simp), if_pos hlen, h1]
  refine ⟨?_, ?_, ?_, ?_⟩
  · intro h
    have hexec := executeInstruction_affirms_ne_zero ex c id h
    exact ⟨hexec, (hsched _ hexec).1, (hsched _ hexec).2⟩
  · intro h0 hs
    have hexec := executeInstruction_not_pending ex c id h0 hs
    exact ⟨hexec, (hsched _ hexec).1, (hsched _ hexec).2⟩
  · intro legsCount portfolio did hunknown
    unfold executeManualInstruction
    unfold ensureInstructionValidity
    rw [if_pos hunknown]
    simp only [ethrowEq, ebindErr]
  · intro legsCount p did d hval hcust hparty hlen
    constructor
    · intro h
      exact hmanual legsCount p did _ d hval hcust hparty hlen
        (executeInstruction_affirms_ne_zero ex c id h)
    · intro h0 hs
      exact hmanual legsCount p did _ d hval hcust hparty hlen
        (executeInstruction_not_pending ex c id h0 hs)

/-- A failed instruction on which a party has since withdrawn an
affirmation: status `Failed` and a nonzero pending counter. -/
def failedChain : Chain Nat :=
  { readyChain with
    instructionStatuses := fun i => if i = 1 then .failed else .unknown,
    instructionAffirmsPending := fun i => if i = 1 then 1 else 0 }

/-- Counterexample to C2 as stated: `failedChain`'s instruction has a
non-`Pending` stored status, yet execution reports `InstructionFailed`
(the nonzero-counter check wins), not `InstructionNotPending`. -/
theorem c2_gating_counterexample :
    failedChain.instructionStatuses 1 ≠ .pending ∧
    (executeInstruction happyExternals failedChain 1).2
      = .error .instructionFailed ∧
    (executeInstruction happyExternals failedChain 1).2
      ≠ .error .instructionNotPending ∧
    (baseExecuteScheduledInstruction happyExternals failedChain 1).2
      = some .instructionFailed := by
  refine ⟨by decide, rfl, ?_, rfl⟩
  intro h
  have h2 : (Except.error Err.instructionFailed : Except Err Nat)
      = .error .instructionNotPending := h
  simp at h2

/-- A failed instruction with a zero pending counter. -/
def failedQuietChain : Chain Nat :=
  { readyChain with
    instructionStatuses := fun i => if i = 1 then .failed else .unknown }

/-- Witness for the amended C2 at concrete states: the nonzero-counter
case, the zero-counter non-`Pending` case, the manual `Unknown` case and
the manual non-`Pending` case. -/
theorem c2_execution_gating_witness :
    executeInstruction happyExternals failedChain 1
      = (failedChain, .error .instructionFailed) ∧
    executeInstruction happyExternals failedQuietChain 1
      = (failedQuietChain, .error .instructionNotPending) ∧
    executeManualInstruction happyExternals emptyChain 1 1 (some 3) 0
      = .error .unknownInstruction ∧
    executeManualInstruction happyExternals failedQuietChain 1 1 (some 3) 0
      = .error .instructionNotPending := by
  refine ⟨?_, ?_, ?_, ?_⟩
  · exact ((c2_execution_gating_amended Nat happyExternals failedChain 1).1
      (by decide)).1
  · exact ((c2_execution_gating_amended Nat happyExternals failedQuietChain 1).2.1
      (by decide) (by decide)).1
  · exact (c2_execution_gating_amended Nat happyExternals emptyChain 1).2.2.1
      1 (some 3) 0 (by decide)
  · exact ((c2_execution_gating_amended Nat happyExternals failedQuietChain 1).2.2.2
      1 3 0 { instructionId := 1, venueId := 2,
              settlementType := .settleOnAffirmation, createdAt := some 0,
              tradeDate := none, valueDate := none }
      (by rfl) (by decide) (by decide) (by decide)).2 (by decide) (by decide)

end ClaimC2

section ExceptHelpers

theorem ebindOkEx {ε α β : Type} {e : Except ε α} {k : α → Except ε β} {v : β}
    (h : (e >>= k) = .ok v) : ∃ a, e = .ok a ∧ k a = .ok v := by
  cases e with
  | error err => exact absurd (ebindErr err k ▸ h) (by simp)
  | ok a => exact ⟨a, rfl, by rwa [ebindOk] at h⟩

theorem ebindUnitOk {ε β : Type} {e : Except ε Unit} {k : Unit → Except ε β}
    {v : β} (h : (e >>= k) = .ok v) : k () = .ok v := by
  rcases ebindOkEx h with ⟨a, _, hk⟩
  cases a; exact hk

end ExceptHelpers

section ClaimC4Lemmas

variable {E : Type}

theorem mem_partiesFold {p : Nat} :
    ∀ (legs : List LegV2) (acc : List Nat),
      p ∈ partiesFold acc legs ↔
        p ∈ acc ∨ ∃ leg ∈ legs, leg.from_ = p ∨ leg.to_ = p := by
  intro legs
  induction legs with
  | nil => intro acc; simp [partiesFold]
  | cons leg rest ih =>
      intro acc
      simp only [partiesFold]
      rw [ih]
      simp only [mem_btInsert, List.mem_cons]
      constructor
      · rintro (h | h)
        · rcases h with h | h | h
          · exact Or.inr ⟨leg, Or.inl rfl, Or.inr h.symm⟩
          · exact Or.inr ⟨leg, Or.inl rfl, Or.inl h.symm⟩
          · exact Or.inl h
        · rcases h with ⟨q, hq, hqp⟩
          exact Or.inr ⟨q, Or.inr hq, hqp⟩
      · rintro (h | ⟨q, hq, hqp⟩)
        · exact Or.inl (Or.inr (Or.inr h))
        · rcases hq with hq | hq
          · subst hq
            rcases hqp with hqp | hqp
            · exact Or.inl (Or.inr (Or.inl hqp.symm))
            · exact Or.inl (Or.inl hqp.symm)
          · exact Or.inr ⟨q, hq, hqp⟩

theorem partiesFold_sorted :
    ∀ (legs : List LegV2) (acc : List Nat),
      acc.Pairwise (· < ·) → (partiesFold acc legs).Pairwise (· < ·) := by
  intro legs
  induction legs with
  | nil => intro acc h; exact h
  | cons leg rest ih =>
      intro acc h
      exact ih _ (btInsert_sorted (btInsert_sorted h))

theorem partiesFold_nodup (legs : List LegV2) :
    (partiesFold [] legs).Nodup :=
  (partiesFold_sorted legs [] (by simp)).imp (fun h => Nat.ne_of_lt h)

theorem seedUserAffirmations_userAffirmations (id : Nat) :
    ∀ (ps : List Nat) (c : Chain E) (p i : Nat),
      (seedUserAffirmations id c ps).userAffirmations p i
        = if p ∈ ps ∧ i = id then .pending else c.userAffirmations p i := by
  intro ps
  induction ps with
  | nil => intro c p i; simp [seedUserAffirmations]
  | cons q rest ih =>
      intro c p i
      simp only [seedUserAffirmations]
      rw [ih]
      by_cases h1 : p ∈ rest ∧ i = id
      · rw [if_pos h1, if_pos ⟨List.mem_cons_of_mem _ h1.1, h1.2⟩]
      · rw [if_neg h1]
        simp only [update2]
        by_cases h2 : p = q ∧ i = id
        · rw [if_pos h2, if_pos ⟨by rw [h2.1]; exact List.mem_cons_self _ _, h2.2⟩]
        · rw [if_neg h2, if_neg ?_]
          rintro ⟨hm, hi⟩
          rcases List.mem_cons.mp hm with hm | hm
          · exact h2 ⟨hm, hi⟩
          · exact h1 ⟨hm, hi⟩

theorem seedUserAffirmations_fields (id : Nat) :
    ∀ (ps : List Nat) (c : Chain E),
      (seedUserAffirmations id c ps).instructionStatuses
          = c.instructionStatuses ∧
      (seedUserAffirmations id c ps).instructionAffirmsPending
          = c.instructionAffirmsPending ∧
      (seedUserAffirmations id c ps).instructionLegs = c.instructionLegs ∧
      (seedUserAffirmations id c ps).instructionLegsV2 = c.instructionLegsV2 ∧
      (seedUserAffirmations id c ps).instructionDetails
          = c.instructionDetails ∧
      (seedUserAffirmations id c ps).instructionCounter
          = c.instructionCounter ∧
      (seedUserAffirmations id c ps).ext = c.ext := by
  intro ps
  induction ps with
  | nil => intro c; exact ⟨rfl, rfl, rfl, rfl, rfl, rfl, rfl⟩
  | cons q rest ih =>
      intro c
      simpa [seedUserAffirmations] using
        ih { c with
          userAffirmations := update2 c.userAffirmations q id .pending }

theorem assocFind_assocInsert {α : Type} (key key' : Nat) (v : α) :
    ∀ t : List (Nat × α),
      assocFind key' (assocInsert key v t)
        = if key' = key then some v else assocFind key' t := by
  intro t
  induction t with
  | nil =>
      simp only [assocInsert, assocFind]
      by_cases h : key = key'
      · rw [if_pos h, if_pos h.symm]
      · rw [if_neg h, if_neg (fun hh => h hh.symm)]
  | cons p rest ih =>
      obtain ⟨k0, v0⟩ := p
      simp only [assocInsert]
      by_cases h : k0 = key
      · simp only [if_pos h, assocFind]
        by_cases h2 : key' = key
        · simp [h, h2]
        · simp [h, h2, show ¬(key = key') from fun hh => h2 hh.symm]
      · simp only [if_neg h, assocFind, ih]
        by_cases h2 : k0 = key'
        · simp [h2, show ¬(key' = key) from fun hh => h (h2.trans hh)]
        · simp [h2]

theorem assocFind_insertEnumerated_out {α : Type} :
    ∀ (legs : List α) (start : Nat) (t : List (Nat × α)) (key : Nat),
      (key < start ∨ start + legs.length ≤ key) →
      assocFind key (insertEnumerated start legs t) = assocFind key t := by
  intro legs
  induction legs with
  | nil => intro start t key _; rfl
  | cons leg rest ih =>
      intro start t key h
      simp only [insertEnumerated]
      rw [ih (start + 1) _ key (by simp only [List.length_cons] at h; omega)]
      rw [assocFind_assocInsert]
      rw [if_neg (by simp only [List.length_cons] at h; omega)]

theorem assocFind_insertEnumerated_in {α : Type} :
    ∀ (legs : List α) (start : Nat) (t : List (Nat × α)) (key : Nat),
      start ≤ key → key - start < legs.length →
      assocFind key (insertEnumerated start legs t) = legs.get? (key - start) := by
  intro legs
  induction legs with
  | nil => intro start t key _ h2; simp at h2
  | cons leg rest ih =>
      intro start t key h1 h2
      simp only [insertEnumerated]
      by_cases hk : key = start
      · subst hk
        rw [assocFind_insertEnumerated_out rest (key + 1) _ key (Or.inl (by omega))]
        rw [assocFind_assocInsert, if_pos rfl]
        simp
      · have hgt : start + 1 ≤ key := by omega
        rw [ih (start + 1) _ key hgt
          (by simp only [List.length_cons] at h2; omega)]
        have hks : key - start = (key - (start + 1)) + 1 := by omega
        rw [hks]
        simp

theorem legsToLegacy_ok :
    ∀ (legs : List LegV2) (ls : List Leg), legsToLegacy legs = .ok ls →
      ls.length = legs.length ∧
      ∀ k, (ls.get? k).map LegV2.ofLeg = legs.get? k := by
  intro legs
  induction legs with
  | nil =>
      intro ls h
      simp only [legsToLegacy] at h
      injection h with h
      subst h
      exact ⟨rfl, by simp⟩
  | cons leg rest ih =>
      intro ls h
      simp only [legsToLegacy] at h
      cases hasset : leg.asset with
      | nonFungible nfts =>
          rw [show Leg.tryFromLegV2 leg = .error "InvalidLegAsset" by
                simp [Leg.tryFromLegV2, hasset]] at h
          exact absurd h (by simp [ebindErr])
      | fungible ticker amount =>
          have htf : Leg.tryFromLegV2 leg
              = .ok { from_ := leg.from_, to_ := leg.to_,
                      asset := ticker, amount := amount } := by
            simp [Leg.tryFromLegV2, hasset]
          rw [htf] at h
          rw [ebindOk] at h
          cases hrest : legsToLegacy rest with
          | error e => rw [hrest] at h; exact absurd h (by simp [ebindErr])
          | ok legacyRest =>
              rw [hrest, ebindOk] at h
              injection h with h
              subst h
              obtain ⟨hlen, hget⟩ := ih legacyRest hrest
              refine ⟨by simp [hlen], ?_⟩
              intro k
              cases k with
              | zero =>
                  simp only [List.get?, Option.map]
                  have : LegV2.ofLeg
                      { from_ := leg.from_, to_ := leg.to_,
                        asset := ticker, amount := amount } = leg := by
                    cases leg
                    simp only [LegV2.ofLeg]
                    simp_all
                  rw [this]
              | succ n => simpa using hget n

theorem ensureValidLegsLoop_parties (ex : Externals E) (c : Chain E)
    (venueId : Nat) :
    ∀ (legs : List LegV2) (parties tickers : List Nat) (f nf : Nat)
      (res : List Nat × Nat × Nat),
      ensureValidLegsLoop ex c venueId legs parties tickers f nf = .ok res →
      res.1 = partiesFold parties legs := by
  intro legs
  induction legs with
  | nil =>
      intro parties tickers f nf res h
      simp only [ensureValidLegsLoop] at h
      injection h with h
      rw [← h]
      rfl
  | cons leg rest ih =>
      intro parties tickers f nf res h
      obtain ⟨lfrom, lto, lasset⟩ := leg
      cases lasset with
      | fungible ticker amount =>
          simp only [ensureValidLegsLoop] at h
          by_cases hft : lfrom = lto
          · rw [if_pos hft] at h
            exact absurd h (by simp [ethrowEq, ebindErr])
          · rw [if_neg hft, epureEq, ebindOk] at h
            by_cases ha : amount = 0
            · rw [if_pos ha] at h
              exact absurd h (by simp [ethrowEq, ebindErr])
            · rw [if_neg ha, ebindOk] at h
              cases hvf : ensureVenueFiltering c tickers ticker venueId with
              | error e =>
                  rw [hvf] at h
                  exact absurd h (by simp [ebindErr])
              | ok tickers1 =>
                  rw [hvf, ebindOk] at h
                  rw [ih _ _ _ _ _ h]
                  simp [partiesFold]
      | nonFungible nfts =>
          simp only [ensureValidLegsLoop] at h
          by_cases hft : lfrom = lto
          · rw [if_pos hft] at h
            exact absurd h (by simp [ethrowEq, ebindErr])
          · rw [if_neg hft, epureEq, ebindOk] at h
            by_cases hlim : ex.nftLimitsOk nfts
            · rw [if_neg (by simp [hlim]), ebindOk] at h
              cases hvf : ensureVenueFiltering c tickers nfts.ticker venueId with
              | error e =>
                  rw [hvf] at h
                  exact absurd h (by simp [ebindErr])
              | ok tickers1 =>
                  rw [hvf, ebindOk] at h
                  by_cases hdup : nfts.ids.Nodup
                  · rw [if_neg (by simp [hdup]), ebindOk] at h
                    rw [ih _ _ _ _ _ h]
                    simp [partiesFold]
                  · rw [if_pos (by simp [hdup])] at h
                    exact absurd h (by simp [ethrowEq, ebindErr])
            · rw [if_pos (by simp [hlim])] at h
              exact absurd h (by simp [ethrowEq, ebindErr])

theorem ensureValidLegs_parties {ex : Externals E} {cfg : Config}
    {c : Chain E} {legs : List LegV2} {venueId : Nat}
    {info : InstructionInfo}
    (h : ensureValidLegs ex cfg c legs venueId = .ok info) :
    info.parties = partiesFold [] legs := by
  unfold ensureValidLegs at h
  cases hloop : ensureValidLegsLoop ex c venueId legs [] [] 0 0 with
  | error e => rw [hloop] at h; exact absurd h (by simp [ebindErr])
  | ok res =>
      rw [hloop, ebindOk] at h
      by_cases h1 : res.2.2 ≤ cfg.maxNumberOfNFTs
      · rw [if_pos h1] at h
        by_cases h2 : res.2.1 ≤ cfg.maxNumberOfFungibleAssets
        · rw [if_pos h2] at h
          injection h with h
          rw [← h]
          exact ensureValidLegsLoop_parties ex c venueId legs [] [] 0 0 _ hloop
        · rw [if_neg h2] at h
          exact absurd h (by simp)
      · rw [if_neg h1] at h
        exact absurd h (by simp)

theorem addInstructionWrites_spec (c : Chain E) (iid vid : Nat)
    (instr : Instruction) (parties : List Nat) (memo : Option Nat) :
    (addInstructionWrites c iid vid instr parties memo).instructionStatuses iid
        = .pending ∧
    (addInstructionWrites c iid vid instr parties memo).instructionAffirmsPending
        iid = parties.length ∧
    (∀ p i,
      (addInstructionWrites c iid vid instr parties memo).userAffirmations p i
        = if p ∈ parties ∧ i = iid then .pending else c.userAffirmations p i) ∧
    (addInstructionWrites c iid vid instr parties memo).instructionLegs
        = c.instructionLegs ∧
    (addInstructionWrites c iid vid instr parties memo).instructionLegsV2
        = c.instructionLegsV2 := by
  obtain ⟨hst, hpend, hlegs, hlegsV2, _, _, _⟩ :=
    seedUserAffirmations_fields iid parties
      { c with
        instructionCounter := c.instructionCounter + 1,
        instructionStatuses :=
          fun i => if i = iid then .pending else c.instructionStatuses i }
  have huser := seedUserAffirmations_userAffirmations iid parties
      { c with
        instructionCounter := c.instructionCounter + 1,
        instructionStatuses :=
          fun i => if i = iid then .pending else c.instructionStatuses i }
  cases memo with
  | none =>
      refine ⟨?_, ?_, ?_, ?_, ?_⟩
      · simp [addInstructionWrites, hst]
      · simp [addInstructionWrites]
      · intro p i; simp [addInstructionWrites, huser]
      · simp [addInstructionWrites, hlegs]
      · simp [addInstructionWrites, hlegsV2]
  | some m =>
      refine ⟨?_, ?_, ?_, ?_, ?_⟩
      · simp [addInstructionWrites, hst]
      · simp [addInstructionWrites]
      · intro p i; simp [addInstructionWrites, huser]
      · simp [addInstructionWrites, hlegs]
      · simp [addInstructionWrites, hlegsV2]

end ClaimC4Lemmas

section ClaimC4

/-- **C4.** For every successful instruction creation (any
`add_instruction` variant, i.e. any flag/memo combination of
`base_add_instruction`): the pending-affirmations counter of the new
instruction equals the number of distinct portfolios appearing as sender
or receiver across the legs (`partiesFold [] legs`, a duplicate-free list
whose members are exactly those portfolios); exactly those portfolios
receive a `Pending` user-affirmation entry (all others are untouched); the
stored status is `Pending`; and the legs are stored under ids `0..n-1` in
input order — in the unified table, or, for the deprecated encoding, in
the legacy table whose read path converts back to the input legs. -/
theorem c4_instruction_creation :
    ∀ (E : Type) (ex : Externals E) (cfg : Config) (c : Chain E)
      (did venueId : Nat) (settlementType : SettlementType)
      (tradeDate valueDate : Option Nat) (legs : List LegV2)
      (memo : Option Nat) (emitDep : Bool) (iid : Nat) (c' : Chain E),
      baseAddInstruction ex cfg c did venueId settlementType tradeDate
        valueDate legs memo emitDep = .ok (iid, c') →
      iid = c.instructionCounter ∧
      c'.instructionAffirmsPending iid = (partiesFold [] legs).length ∧
      (partiesFold [] legs).Nodup ∧
      (∀ p, p ∈ partiesFold [] legs ↔
        ∃ leg ∈ legs, leg.from_ = p ∨ leg.to_ = p) ∧
      (∀ p, p ∈ partiesFold [] legs →
        c'.userAffirmations p iid = .pending) ∧
      (∀ p, p ∉ partiesFold [] legs →
        c'.userAffirmations p iid = c.userAffirmations p iid) ∧
      c'.instructionStatuses iid = .pending ∧
      (if emitDep then
        ∀ k, k < legs.length →
          (assocFind k (c'.instructionLegs iid)).map LegV2.ofLeg = legs.get? k
       else
        ∀ k, k < legs.length →
          assocFind k (c'.instructionLegsV2 iid) = legs.get? k) := by
  intro E ex cfg c did venueId settlementType tradeDate valueDate legs memo
    emitDep iid c' h
  unfold baseAddInstruction at h
  have h := ebindUnitOk h
  have h := ebindUnitOk h
  obtain ⟨venue, hvenue, h⟩ := ebindOkEx h
  obtain ⟨info, hinfo, h⟩ := ebindOkEx h
  have h := ebindUnitOk h
  have hparties : info.parties = partiesFold [] legs := ensureValidLegs_parties hinfo
  obtain ⟨hwStatus, hwPending, hwUser, hwLegs, hwLegsV2⟩ :=
    addInstructionWrites_spec c c.instructionCounter venueId
      { instructionId := c.instructionCounter, venueId := venueId,
        settlementType := settlementType, createdAt := some c.timestamp,
        tradeDate := tradeDate, valueDate := valueDate }
      info.parties memo
  cases emitDep with
  | true =>
      rw [if_pos rfl] at h
      cases hleg : legsToLegacy legs with
      | error e => rw [hleg] at h; exact absurd h (by simp)
      | ok legacyLegs =>
          rw [hleg] at h
          injection h with h
          injection h with hiid hc
          subst hiid
          subst hc
          obtain ⟨hlen, hget⟩ := legsToLegacy_ok legs legacyLegs hleg
          refine ⟨rfl, ?_, partiesFold_nodup legs, ?_, ?_, ?_, ?_, ?_⟩
          · rw [hwPending, hparties]
          · intro p
            rw [mem_partiesFold]
            simp
          · intro p hp
            rw [hwUser]
            rw [if_pos (show p ∈ info.parties ∧
              c.instructionCounter = c.instructionCounter from
              ⟨by rw [hparties]; exact hp, rfl⟩)]
          · intro p hp
            rw [hwUser]
            rw [if_neg (show ¬(p ∈ info.parties ∧
              c.instructionCounter = c.instructionCounter) from
              by rintro ⟨hm, _⟩; rw [hparties] at hm; exact hp hm)]
          · exact hwStatus
          · rw [if_pos rfl]
            intro k hk
            have hfind : ∀ t : List (Nat × Leg),
                assocFind k (insertEnumerated 0 legacyLegs t)
                  = legacyLegs.get? k := by
              intro t
              have := assocFind_insertEnumerated_in legacyLegs 0 t k
                (Nat.zero_le k) (by rw [Nat.sub_zero, hlen]; exact hk)
              rwa [Nat.sub_zero] at this
            simp [hfind]
            simpa using hget k
  | false =>
      rw [if_neg (by simp)] at h
      injection h with h
      injection h with hiid hc
      subst hiid
      subst hc
      refine ⟨rfl, ?_, partiesFold_nodup legs, ?_, ?_, ?_, ?_, ?_⟩
      · rw [hwPending, hparties]
      · intro p
        rw [mem_partiesFold]
        simp
      · intro p hp
        rw [hwUser]
        rw [if_pos (show p ∈ info.parties ∧
          c.instructionCounter = c.instructionCounter from
          ⟨by rw [hparties]; exact hp, rfl⟩)]
      · intro p hp
        rw [hwUser]
        rw [if_neg (show ¬(p ∈ info.parties ∧
          c.instructionCounter = c.instructionCounter) from
          by rintro ⟨hm, _⟩; rw [hparties] at hm; exact hp hm)]
      · exact hwStatus
      · rw [if_neg (by simp)]
        intro k hk
        have hfind : ∀ t : List (Nat × LegV2),
            assocFind k (insertEnumerated 0 legs t) = legs.get? k := by
          intro t
          have := assocFind_insertEnumerated_in legs 0 t k
            (Nat.zero_le k) (by rw [Nat.sub_zero]; exact hk)
          rwa [Nat.sub_zero] at this
        simp [hfind]

/-- A chain holding only venue 2, created by identity 9. -/
def venueChain : Chain Nat :=
  { emptyChain with
    venueInfo := fun v => if v = 2 then some ⟨9, 0⟩ else none }

/-- The legs of the concrete creation witness. -/
def c4WitnessLegs : List LegV2 :=
  [⟨3, 4, .fungible 7 100⟩, ⟨4, 5, .fungible 8 50⟩]

/-- The concrete creation run of the C4 witness. -/
def c4Run : Except Err (Nat × Chain Nat) :=
  baseAddInstruction happyExternals witnessConfig venueChain 9 2
    .settleOnAffirmation none none c4WitnessLegs none false

/-- The post-state of the concrete creation run. -/
def c4ResChain : Chain Nat :=
  match c4Run with
  | .ok r => r.2
  | .error _ => emptyChain

/-- Witness for C4: creating a two-leg instruction among portfolios 3, 4
and 5 yields pending count 3, `Pending` entries exactly for the three
parties, status `Pending` and legs under ids 0 and 1 in input order. -/
theorem c4_instruction_creation_witness :
    c4ResChain.instructionAffirmsPending 1 = 3 ∧
    c4ResChain.userAffirmations 3 1 = .pending ∧
    c4ResChain.userAffirmations 4 1 = .pending ∧
    c4ResChain.userAffirmations 5 1 = .pending ∧
    c4ResChain.userAffirmations 6 1 = .unknown ∧
    c4ResChain.instructionStatuses 1 = .pending ∧
    assocFind 0 (c4ResChain.instructionLegsV2 1) = some ⟨3, 4, .fungible 7 100⟩ ∧
    assocFind 1 (c4ResChain.instructionLegsV2 1) = some ⟨4, 5, .fungible 8 50⟩ := by
  have h := c4_instruction_creation Nat happyExternals witnessConfig venueChain
    9 2 .settleOnAffirmation none none c4WitnessLegs none false 1 c4ResChain
    (by rfl)
  obtain ⟨_, hpend, _, _, hmem, hnot, hstat, hlegs⟩ := h
  rw [if_neg (by simp)] at hlegs
  refine ⟨?_, ?_, ?_, ?_, ?_, hstat, ?_, ?_⟩
  · rw [hpend]; decide
  · exact hmem 3 (by decide)
  · exact hmem 4 (by decide)
  · exact hmem 5 (by decide)
  · rw [hnot 6 (by decide)]; decide
  · have := hlegs 0 (by decide)
    rw [this]; decide
  · have := hlegs 1 (by decide)
    rw [this]; decide

end ClaimC4

section ClaimC10

variable {E : Type}

/-- The number of NFTs moved by a list of legs. -/
def nftCount : List (Nat × LegV2) → Nat
  | [] => 0
  | (_, leg) :: rest =>
      (match leg.asset with
       | .fungible _ _ => 0
       | .nonFungible nfts => nfts.ids.length) + nftCount rest

/-- When every NFT leg respects the per-leg bound, `get_transfer_data`
succeeds and counts exactly the NFTs moved. -/
theorem getTransferData_ok {cfg : Config} :
    ∀ legs : List (Nat × LegV2),
      (∀ p ∈ legs, ∀ nfts : NFTs, p.2.asset = .nonFungible nfts →
        nfts.ids.length ≤ cfg.maxNumberOfNFTsPerLeg) →
      ∃ td, getTransferData cfg legs = .ok td ∧ td.nonFungible = nftCount legs := by
  intro legs
  induction legs with
  | nil => intro _; exact ⟨⟨0, 0⟩, rfl, rfl⟩
  | cons p rest ih =>
      intro hbound
      obtain ⟨lid, leg⟩ := p
      obtain ⟨td, htd, hcount⟩ :=
        ih (fun q hq => hbound q (List.mem_cons_of_mem _ hq))
      cases hasset : leg.asset with
      | fungible ticker amount =>
          refine ⟨⟨td.fungible + 1, td.nonFungible⟩, ?_, ?_⟩
          · simp only [getTransferData, htd, ebindOk, hasset]
          · simp only [nftCount, hasset, hcount, Nat.zero_add]
      | nonFungible nfts =>
          have hle : nfts.ids.length ≤ cfg.maxNumberOfNFTsPerLeg :=
            hbound (lid, leg) (List.mem_cons_self _ _) nfts hasset
          refine ⟨⟨td.fungible, td.nonFungible + nfts.ids.length⟩, ?_, ?_⟩
          · simp only [getTransferData, htd, ebindOk, hasset]
            rw [if_pos hle]
          · simp only [nftCount, hasset, hcount]
            omega

/-- A leg list containing a nonempty NFT leg moves at least one NFT. -/
theorem nftCount_pos :
    ∀ legs : List (Nat × LegV2),
      (∃ p ∈ legs, ∃ nfts : NFTs, p.2.asset = .nonFungible nfts ∧ nfts.ids ≠ []) →
      0 < nftCount legs := by
  intro legs
  induction legs with
  | nil => intro h; simp at h
  | cons p rest ih =>
      intro h
      obtain ⟨lid, leg⟩ := p
      rcases h with ⟨q, hq, nfts, hasset, hne⟩
      rcases List.mem_cons.mp hq with h1 | h1
      · subst h1
        have hasset2 : leg.asset = .nonFungible nfts := hasset
        simp only [nftCount, hasset2]
        have : 0 < nfts.ids.length := List.length_pos.mpr hne
        omega
      · have := ih ⟨q, h1, nfts, hasset, hne⟩
        simp only [nftCount]
        omega

/-- With no declared NFT count, `filtered_legs` on a filtered set that
moves at least one NFT fails with `DeprecatedCallOnV2Instruction`. -/
theorem filteredLegs_deprecated {cfg : Config} {c : Chain E} {id : Nat}
    {portfolioSet : List Nat} {fungibleTransfers : Nat}
    (hbound : ∀ p ∈ filteredSenderLegs c id portfolioSet,
      ∀ nfts : NFTs, p.2.asset = .nonFungible nfts →
        nfts.ids.length ≤ cfg.maxNumberOfNFTsPerLeg)
    (hnft : ∃ p ∈ filteredSenderLegs c id portfolioSet,
      ∃ nfts : NFTs, p.2.asset = .nonFungible nfts ∧ nfts.ids ≠ []) :
    filteredLegs cfg c id portfolioSet fungibleTransfers none
      = .error .deprecatedCallOnV2Instruction := by
  obtain ⟨td, htd, hcount⟩ := getTransferData_ok _ hbound
  have hpos : 0 < td.nonFungible := by
    rw [hcount]; exact nftCount_pos _ hnft
  unfold filteredLegs
  rw [htd, ebindOk]
  unfold ensureValidInputCost
  rw [if_pos hpos]
  rfl

/-- Custody passing and a uniform affirmation status make the portfolio
precheck succeed. -/
theorem ensurePortfolios_ok_single (ex : Externals E) (c : Chain E)
    (id : Nat) (st : AffirmationStatus) :
    ∀ ps : List Nat,
      (∀ p ∈ ps, ex.custody p = true) →
      (∀ p ∈ ps, c.userAffirmations p id = st) →
      ensurePortfoliosAndAffirmationStatus ex c id [st] ps = .ok () := by
  intro ps
  induction ps with
  | nil => intro _ _; rfl
  | cons q rest ih =>
      intro hc hs
      have hcq : ex.custody q = true := hc q (List.mem_cons_self q rest)
      have hsq : c.userAffirmations q id = st := hs q (List.mem_cons_self q rest)
      simp only [ensurePortfoliosAndAffirmationStatus, hcq, hsq]
      rw [if_pos trivial,
        if_pos (show ([st].contains st) = true by cases st <;> rfl)]
      exact ih (fun p hp => hc p (List.mem_cons_of_mem _ hp))
        (fun p hp => hs p (List.mem_cons_of_mem _ hp))

/-- **C10.** Every affirmation-family entry point that supplies no NFT
count — `affirm_instruction`, `withdraw_affirmation` and
`affirm_with_receipts` — fails with `DeprecatedCallOnV2Instruction`
whenever at least one (nonempty, per-leg-bounded) NFT leg has its sender
among the given portfolios; in particular receipt-based affirmation is
impossible for a portfolio sending any NFT leg even when the supplied
receipts all pass their own checks (e.g. reference only fungible legs). -/
theorem c10_deprecated_call_on_nft_legs :
    ∀ (E : Type) (ex : Externals E) (cfg : Config) (c : Chain E)
      (id : Nat) (portfolios : List Nat) (maxLegsCount : Nat)
      (d : Instruction) (receiptDetails : List ReceiptDetails),
      ensureInstructionValidity c id false = .ok d →
      (∀ p ∈ btOfList portfolios, ex.custody p = true) →
      (∀ p ∈ filteredSenderLegs c id (btOfList portfolios),
        ∀ nfts : NFTs, p.2.asset = .nonFungible nfts →
          nfts.ids.length ≤ cfg.maxNumberOfNFTsPerLeg) →
      (∃ p ∈ filteredSenderLegs c id (btOfList portfolios),
        ∃ nfts : NFTs, p.2.asset = .nonFungible nfts ∧ nfts.ids ≠ []) →
      ((∀ p ∈ btOfList portfolios, c.userAffirmations p id = .pending) →
        affirmInstruction ex cfg c id portfolios maxLegsCount
          = .error .deprecatedCallOnV2Instruction) ∧
      ((∀ p ∈ btOfList portfolios, c.userAffirmations p id = .affirmed) →
        withdrawAffirmation ex cfg c id portfolios maxLegsCount
          = .error .deprecatedCallOnV2Instruction) ∧
      ((∀ p ∈ btOfList portfolios, c.userAffirmations p id = .pending) →
        (receiptDetails.map fun r => (r.signer, r.receiptUid)).dedup.length
          = receiptDetails.length →
        checkReceipts ex c id d.venueId (btOfList portfolios) receiptDetails
          = .ok () →
        affirmWithReceipts ex cfg c id receiptDetails portfolios maxLegsCount
          = .error .deprecatedCallOnV2Instruction) := by
  intro E ex cfg c id portfolios maxLegsCount d receiptDetails hval hcust
    hbound hnft
  have hfl := @filteredLegs_deprecated _ cfg _ _ _ maxLegsCount hbound hnft
  refine ⟨?_, ?_, ?_⟩
  · intro hpend
    have hport := ensurePortfolios_ok_single ex c id .pending _ hcust hpend
    unfold affirmInstruction baseAffirmInstruction unsafeAffirmInstruction
    rw [hval, ebindOk, hport, ebindOk, hfl]
    rfl
  · intro haff
    have hport := ensurePortfolios_ok_single ex c id .affirmed _ hcust haff
    unfold withdrawAffirmation unsafeWithdrawInstructionAffirmation
    rw [hval, ebindOk, hport, ebindOk, hfl]
    rfl
  · intro hpend hdedup hcheck
    have hport := ensurePortfolios_ok_single ex c id .pending _ hcust hpend
    unfold affirmWithReceipts baseAffirmWithReceipts
    rw [hval, ebindOk, if_pos hdedup, ebindOk, hport, ebindOk, hcheck,
      ebindOk, hfl]
    rfl

/-- A pending one-NFT-leg instruction awaiting portfolio 3's affirmation. -/
def nftPendingChain : Chain Nat :=
  { emptyChain with
    instructionDetails := fun i =>
      if i = 1 then
        some { instructionId := 1, venueId := 2,
               settlementType := .settleOnAffirmation, createdAt := some 0,
               tradeDate := none, valueDate := none }
      else none,
    instructionStatuses := fun i => if i = 1 then .pending else .unknown,
    instructionLegsV2 := fun i =>
      if i = 1 then [(0, ⟨3, 4, .nonFungible ⟨7, [11]⟩⟩)] else [],
    userAffirmations := fun p i =>
      if p = 3 ∧ i = 1 then .pending else .unknown }

/-- The same instruction after portfolio 3 affirmed. -/
def nftAffirmedChain : Chain Nat :=
  { nftPendingChain with
    userAffirmations := fun p i =>
      if p = 3 ∧ i = 1 then .affirmed else .unknown }

/-- Witness for C10 at a one-NFT-leg instruction: all three NFT-count-less
entry points fail with `DeprecatedCallOnV2Instruction`. -/
theorem c10_deprecated_call_witness :
    affirmInstruction happyExternals witnessConfig nftPendingChain 1 [3] 5
      = .error .deprecatedCallOnV2Instruction ∧
    withdrawAffirmation happyExternals witnessConfig nftAffirmedChain 1 [3] 5
      = .error .deprecatedCallOnV2Instruction ∧
    affirmWithReceipts happyExternals witnessConfig nftPendingChain 1 [] [3] 5
      = .error .deprecatedCallOnV2Instruction := by
  have hbP : ∀ p ∈ filteredSenderLegs nftPendingChain 1 (btOfList [3]),
      ∀ nfts : NFTs, p.2.asset = .nonFungible nfts →
        nfts.ids.length ≤ witnessConfig.maxNumberOfNFTsPerLeg := by
    intro p hp nfts hasset
    have hp2 : p ∈ [((0 : Nat), (⟨3, 4, .nonFungible ⟨7, [11]⟩⟩ : LegV2))] := hp
    rw [List.mem_singleton] at hp2
    subst hp2
    injection hasset with h
    subst h
    decide
  have hbA : ∀ p ∈ filteredSenderLegs nftAffirmedChain 1 (btOfList [3]),
      ∀ nfts : NFTs, p.2.asset = .nonFungible nfts →
        nfts.ids.length ≤ witnessConfig.maxNumberOfNFTsPerLeg := hbP
  refine ⟨?_, ?_, ?_⟩
  · exact (c10_deprecated_call_on_nft_legs Nat happyExternals witnessConfig
      nftPendingChain 1 [3] 5
      { instructionId := 1, venueId := 2,
        settlementType := .settleOnAffirmation, createdAt := some 0,
        tradeDate := none, valueDate := none } []
      (by rfl) (by decide) hbP
      ⟨(0, ⟨3, 4, .nonFungible ⟨7, [11]⟩⟩), by decide, ⟨7, [11]⟩, rfl,
        by decide⟩).1 (by decide)
  · exact (c10_deprecated_call_on_nft_legs Nat happyExternals witnessConfig
      nftAffirmedChain 1 [3] 5
      { instructionId := 1, venueId := 2,
        settlementType := .settleOnAffirmation, createdAt := some 0,
        tradeDate := none, valueDate := none } []
      (by rfl) (by decide) hbA
      ⟨(0, ⟨3, 4, .nonFungible ⟨7, [11]⟩⟩), by decide, ⟨7, [11]⟩, rfl,
        by decide⟩).2.1 (by decide)
  · exact (c10_deprecated_call_on_nft_legs Nat happyExternals witnessConfig
      nftPendingChain 1 [3] 5
      { instructionId := 1, venueId := 2,
        settlementType := .settleOnAffirmation, createdAt := some 0,
        tradeDate := none, valueDate := none } []
      (by rfl) (by decide) hbP
      ⟨(0, ⟨3, 4, .nonFungible ⟨7, [11]⟩⟩), by decide, ⟨7, [11]⟩, rfl,
        by decide⟩).2.2 (by decide) (by decide) (by rfl)

end ClaimC10

section ClaimC7Lemmas

variable {E : Type}

/-- A leg in a state `unsafe_withdraw_instruction_affirmation` can undo:
locked (`ExecutionPending`) or receipt-covered (`ExecutionToBeSkipped`). -/
def withdrawableLeg (c : Chain E) (id : Nat) (p : Nat × LegV2) : Prop :=
  c.instructionLegStatus id p.1 = .executionPending ∨
  ∃ s u, c.instructionLegStatus id p.1 = .executionToBeSkipped s u

/-- The external-state effect of withdrawing a leg list: unlock each leg
that is in state `ExecutionPending` (statuses read in `c`). -/
def unlockExtFold (ex : Externals E) (c : Chain E) (id : Nat) :
    List (Nat × LegV2) → E → E
  | [], e => e
  | (l, leg) :: rest, e =>
      if c.instructionLegStatus id l = .executionPending then
        unlockExtFold ex c id rest ((ex.unlockLeg leg e).getD e)
      else unlockExtFold ex c id rest e

theorem unlockExtFold_congr (ex : Externals E) (id : Nat) :
    ∀ (legs : List (Nat × LegV2)) (c c' : Chain E),
      (∀ p ∈ legs, c'.instructionLegStatus id p.1
        = c.instructionLegStatus id p.1) →
      ∀ e, unlockExtFold ex c' id legs e = unlockExtFold ex c id legs e := by
  intro legs
  induction legs with
  | nil => intro c c' _ e; rfl
  | cons p rest ih =>
      intro c c' hst e
      obtain ⟨l, leg⟩ := p
      have hl : c'.instructionLegStatus id l = c.instructionLegStatus id l :=
        hst (l, leg) (List.mem_cons_self _ _)
      simp only [unlockExtFold, hl]
      by_cases hp : c.instructionLegStatus id l = .executionPending
      · rw [if_pos hp, if_pos hp]
        exact ih c c' (fun q hq => hst q (List.mem_cons_of_mem _ hq)) _
      · rw [if_neg hp, if_neg hp]
        exact ih c c' (fun q hq => hst q (List.mem_cons_of_mem _ hq)) _

/-- Success and full effect of the withdraw leg loop: with duplicate-free
leg ids, every leg withdrawable and unlocking total, the loop succeeds,
resets exactly the visited leg statuses to `PendingTokenLock`, clears
exactly the receipts claimed by visited skipped legs, folds the unlocks
into the external state, and touches nothing else. -/
theorem withdrawLegsLoop_ok (ex : Externals E) (id : Nat) :
    ∀ (legs : List (Nat × LegV2)) (c : Chain E),
      (legs.map Prod.fst).Nodup →
      (∀ p ∈ legs, withdrawableLeg c id p) →
      (∀ p ∈ legs, ∀ e, (ex.unlockLeg p.2 e).isSome = true) →
      ∃ c1, withdrawLegsLoop ex id c legs = .ok c1 ∧
        (∀ i l, c1.instructionLegStatus i l
          = if i = id ∧ l ∈ legs.map Prod.fst then .pendingTokenLock
            else c.instructionLegStatus i l) ∧
        (∀ s u, c1.receiptsUsed s u
          = if ∃ p ∈ legs,
              c.instructionLegStatus id p.1 = .executionToBeSkipped s u
            then false else c.receiptsUsed s u) ∧
        c1.ext = unlockExtFold ex c id legs c.ext ∧
        c1.userAffirmations = c.userAffirmations ∧
        c1.instructionAffirmsPending = c.instructionAffirmsPending ∧
        c1.instructionStatuses = c.instructionStatuses ∧
        c1.instructionLegsV2 = c.instructionLegsV2 ∧
        c1.instructionLegs = c.instructionLegs := by
  intro legs
  induction legs with
  | nil =>
      intro c _ _ _
      refine ⟨c, rfl, ?_, ?_, rfl, rfl, rfl, rfl, rfl, rfl⟩
      · intro i l; simp
      · intro s u; simp
  | cons p rest ih =>
      intro c hnodup hgood hunlock
      obtain ⟨l0, leg0⟩ := p
      have hmap : ((l0, leg0) :: rest).map Prod.fst
          = l0 :: rest.map Prod.fst := rfl
      rw [hmap] at hnodup
      have hl0 : l0 ∉ rest.map Prod.fst := (List.nodup_cons.mp hnodup).1
      have hrestnodup : (rest.map Prod.fst).Nodup := (List.nodup_cons.mp hnodup).2
      rcases hgood (l0, leg0) (List.mem_cons_self _ _) with hpend | ⟨s0, u0, hskip⟩
      · -- locked leg: unlock and reset
        have hs := hunlock (l0, leg0) (List.mem_cons_self _ _) c.ext
        obtain ⟨e, he⟩ := Option.isSome_iff_exists.mp hs
        set c' : Chain E :=
          { c with
            ext := e,
            instructionLegStatus :=
              update2 c.instructionLegStatus id l0 .pendingTokenLock } with hc'
        have hstrest : ∀ q ∈ rest, c'.instructionLegStatus id q.1
            = c.instructionLegStatus id q.1 := by
          intro q hq
          simp only [hc', update2]
          rw [if_neg ?_]
          rintro ⟨_, hql⟩
          exact hl0 (hql ▸ List.mem_map_of_mem Prod.fst hq)
        obtain ⟨c1, hloop, hst1, hru1, hext1, hua1, hap1, hss1, hl2V, hl2⟩ :=
          ih c' hrestnodup
            (fun q hq => by
              rcases hgood q (List.mem_cons_of_mem _ hq) with h1 | ⟨s, u, h1⟩
              · exact Or.inl ((hstrest q hq).trans h1)
              · exact Or.inr ⟨s, u, (hstrest q hq).trans h1⟩)
            (fun q hq => hunlock q (List.mem_cons_of_mem _ hq))
        refine ⟨c1, ?_, ?_, ?_, ?_, hua1, hap1, hss1, hl2V, hl2⟩
        · simpa [withdrawLegsLoop, hpend, unlockViaLeg, he, hc'] using hloop
        · intro i l
          rw [hst1 i l]
          by_cases h1 : i = id ∧ l ∈ rest.map Prod.fst
          · rw [if_pos h1, if_pos ⟨h1.1, by simp [h1.2]⟩]
          · by_cases h2 : i = id ∧ l = l0
            · rw [if_neg h1, if_pos ⟨h2.1, by simp [h2.2]⟩]
              simp only [hc', update2]
              rw [if_pos ⟨h2.1.symm ▸ rfl, h2.2⟩]
            · rw [if_neg h1, if_neg ?_]
              · simp only [hc', update2]
                rw [if_neg (fun hh => h2 ⟨by omega, hh.2⟩)]
              · rintro ⟨hi, hm⟩
                rcases List.mem_map.mp hm with ⟨q, hq, hql⟩
                rcases List.mem_cons.mp hq with hq1 | hq1
                · exact h2 ⟨hi, by rw [← hql, hq1]⟩
                · exact h1 ⟨hi, List.mem_map.mpr ⟨q, hq1, hql⟩⟩
        · intro s u
          rw [hru1 s u]
          have hstc : (∃ q ∈ rest,
              c'.instructionLegStatus id q.1 = .executionToBeSkipped s u) ↔
              (∃ q ∈ rest,
              c.instructionLegStatus id q.1 = .executionToBeSkipped s u) := by
            constructor
            · rintro ⟨q, hq, hqs⟩; exact ⟨q, hq, (hstrest q hq).symm.trans hqs⟩
            · rintro ⟨q, hq, hqs⟩; exact ⟨q, hq, (hstrest q hq).trans hqs⟩
          by_cases h1 : ∃ q ∈ rest,
              c.instructionLegStatus id q.1 = .executionToBeSkipped s u
          · rw [if_pos (hstc.mpr h1), if_pos ?_]
            rcases h1 with ⟨q, hq, hqs⟩
            exact ⟨q, List.mem_cons_of_mem _ hq, hqs⟩
          · rw [if_neg (fun hh => h1 (hstc.mp hh))]
            have : ¬ ∃ q ∈ (l0, leg0) :: rest,
                c.instructionLegStatus id q.1 = .executionToBeSkipped s u := by
              rintro ⟨q, hq, hqs⟩
              rcases List.mem_cons.mp hq with hq1 | hq1
              · rw [hq1] at hqs
                rw [hqs] at hpend
                cases hpend
              · exact h1 ⟨q, hq1, hqs⟩
            rw [if_neg this]
        · rw [hext1]
          simp only [unlockExtFold, hpend, if_pos rfl]
          rw [unlockExtFold_congr ex id rest c c' hstrest]
          simp [hc', he]
      · -- receipt-covered leg: unclaim and reset
        set c' : Chain E :=
          { c with
            receiptsUsed := update2 c.receiptsUsed s0 u0 false,
            instructionLegStatus :=
              update2 c.instructionLegStatus id l0 .pendingTokenLock } with hc'
        have hstrest : ∀ q ∈ rest, c'.instructionLegStatus id q.1
            = c.instructionLegStatus id q.1 := by
          intro q hq
          simp only [hc', update2]
          rw [if_neg ?_]
          rintro ⟨_, hql⟩
          exact hl0 (hql ▸ List.mem_map_of_mem Prod.fst hq)
        obtain ⟨c1, hloop, hst1, hru1, hext1, hua1, hap1, hss1, hl2V, hl2⟩ :=
          ih c' hrestnodup
            (fun q hq => by
              rcases hgood q (List.mem_cons_of_mem _ hq) with h1 | ⟨s, u, h1⟩
              · exact Or.inl ((hstrest q hq).trans h1)
              · exact Or.inr ⟨s, u, (hstrest q hq).trans h1⟩)
            (fun q hq => hunlock q (List.mem_cons_of_mem _ hq))
        refine ⟨c1, ?_, ?_, ?_, ?_, hua1, hap1, hss1, hl2V, hl2⟩
        · simpa [withdrawLegsLoop, hskip, hc'] using hloop
        · intro i l
          rw [hst1 i l]
          by_cases h1 : i = id ∧ l ∈ rest.map Prod.fst
          · rw [if_pos h1, if_pos ⟨h1.1, by simp [h1.2]⟩]
          · by_cases h2 : i = id ∧ l = l0
            · rw [if_neg h1, if_pos ⟨h2.1, by simp [h2.2]⟩]
              simp only [hc', update2]
              rw [if_pos ⟨h2.1.symm ▸ rfl, h2.2⟩]
            · rw [if_neg h1, if_neg ?_]
              · simp only [hc', update2]
                rw [if_neg (fun hh => h2 ⟨by omega, hh.2⟩)]
              · rintro ⟨hi, hm⟩
                rcases List.mem_map.mp hm with ⟨q, hq, hql⟩
                rcases List.mem_cons.mp hq with hq1 | hq1
                · exact h2 ⟨hi, by rw [← hql, hq1]⟩
                · exact h1 ⟨hi, List.mem_map.mpr ⟨q, hq1, hql⟩⟩
        · intro s u
          rw [hru1 s u]
          have hstc : (∃ q ∈ rest,
              c'.instructionLegStatus id q.1 = .executionToBeSkipped s u) ↔
              (∃ q ∈ rest,
              c.instructionLegStatus id q.1 = .executionToBeSkipped s u) := by
            constructor
            · rintro ⟨q, hq, hqs⟩; exact ⟨q, hq, (hstrest q hq).symm.trans hqs⟩
            · rintro ⟨q, hq, hqs⟩; exact ⟨q, hq, (hstrest q hq).trans hqs⟩
          by_cases h1 : ∃ q ∈ rest,
              c.instructionLegStatus id q.1 = .executionToBeSkipped s u
          · rw [if_pos (hstc.mpr h1), if_pos ?_]
            rcases h1 with ⟨q, hq, hqs⟩
            exact ⟨q, List.mem_cons_of_mem _ hq, hqs⟩
          · rw [if_neg (fun hh => h1 (hstc.mp hh))]
            by_cases h2 : s = s0 ∧ u = u0
            · rw [if_pos ⟨(l0, leg0), List.mem_cons_self _ _, by
                rw [hskip, h2.1, h2.2]⟩]
              simp [hc', update2, h2]
            · have : ¬ ∃ q ∈ (l0, leg0) :: rest,
                  c.instructionLegStatus id q.1 = .executionToBeSkipped s u := by
                rintro ⟨q, hq, hqs⟩
                rcases List.mem_cons.mp hq with hq1 | hq1
                · rw [hq1] at hqs
                  rw [hqs] at hskip
                  injection hskip with hs1 hs2
                  exact h2 ⟨hs1, hs2⟩
                · exact h1 ⟨q, hq1, hqs⟩
              rw [if_neg this]
              simp only [hc', update2]
              rw [if_neg h2]
        · rw [hext1]
          have hnp : c.instructionLegStatus id l0 ≠ .executionPending := by
            rw [hskip]; intro hh; cases hh
          simp only [unlockExtFold]
          rw [if_neg hnp]
          rw [unlockExtFold_congr ex id rest c c' hstrest]

theorem affirmContains (x st : AffirmationStatus) :
    ([st].contains x) = true ↔ x = st := by
  cases x <;> cases st <;> decide

/-- Custody passing but some portfolio not in the expected status makes
the portfolio precheck fail with `UnexpectedAffirmationStatus`. -/
theorem ensurePortfolios_error_single (ex : Externals E) (c : Chain E)
    (id : Nat) (st : AffirmationStatus) :
    ∀ ps : List Nat,
      (∀ p ∈ ps, ex.custody p = true) →
      (∃ p ∈ ps, c.userAffirmations p id ≠ st) →
      ensurePortfoliosAndAffirmationStatus ex c id [st] ps
        = .error .unexpectedAffirmationStatus := by
  intro ps
  induction ps with
  | nil => intro _ h; simp at h
  | cons q rest ih =>
      intro hc hbad
      have hcq : ex.custody q = true := hc q (List.mem_cons_self q rest)
      by_cases hq : c.userAffirmations q id = st
      · simp only [ensurePortfoliosAndAffirmationStatus, hcq, hq]
        rw [if_pos trivial,
          if_pos (show ([st].contains st) = true by cases st <;> rfl)]
        refine ih (fun p hp => hc p (List.mem_cons_of_mem _ hp)) ?_
        rcases hbad with ⟨p, hp, hps⟩
        rcases List.mem_cons.mp hp with h1 | h1
        · rw [h1] at hps; exact absurd hq hps
        · exact ⟨p, h1, hps⟩
      · simp only [ensurePortfoliosAndAffirmationStatus, hcq]
        rw [if_pos trivial,
          if_neg (show ¬([st].contains (c.userAffirmations q id)) = true from
            fun hcontains => hq ((affirmContains _ st).mp hcontains))]
        rfl

/-- Reaching a leg still in `PendingTokenLock` (after withdrawable,
duplicate-free leading legs) makes the withdraw loop fail with
`InstructionNotAffirmed`. -/
theorem withdrawLegsLoop_pending_error (ex : Externals E) (id : Nat) :
    ∀ (legsBefore : List (Nat × LegV2)) (c : Chain E) (l0 : Nat)
      (leg0 : LegV2) (legsAfter : List (Nat × LegV2)),
      (legsBefore.map Prod.fst).Nodup →
      (∀ p ∈ legsBefore, withdrawableLeg c id p) →
      (∀ p ∈ legsBefore, ∀ e, (ex.unlockLeg p.2 e).isSome = true) →
      l0 ∉ legsBefore.map Prod.fst →
      c.instructionLegStatus id l0 = .pendingTokenLock →
      withdrawLegsLoop ex id c (legsBefore ++ (l0, leg0) :: legsAfter)
        = .error .instructionNotAffirmed := by
  intro legsBefore
  induction legsBefore with
  | nil =>
      intro c l0 leg0 legsAfter _ _ _ _ hl0
      simp [withdrawLegsLoop, hl0]
  | cons p rest ih =>
      intro c l0 leg0 legsAfter hnodup hgood hunlock hl0mem hl0
      obtain ⟨k, leg⟩ := p
      have hmap : ((k, leg) :: rest).map Prod.fst = k :: rest.map Prod.fst := rfl
      rw [hmap] at hnodup hl0mem
      have hkrest : k ∉ rest.map Prod.fst := (List.nodup_cons.mp hnodup).1
      have hrestnodup : (rest.map Prod.fst).Nodup := (List.nodup_cons.mp hnodup).2
      have hl0k : l0 ≠ k := fun hh => hl0mem (hh ▸ List.mem_cons_self _ _)
      have hl0rest : l0 ∉ rest.map Prod.fst :=
        fun hh => hl0mem (List.mem_cons_of_mem _ hh)
      have htrans : ∀ (c' : Chain E),
          c'.instructionLegStatus
            = update2 c.instructionLegStatus id k .pendingTokenLock →
          (∀ q ∈ rest, withdrawableLeg c' id q) ∧
          c'.instructionLegStatus id l0 = .pendingTokenLock := by
        intro c' hst
        constructor
        · intro q hq
          have hqk : q.1 ≠ k :=
            fun hh => hkrest (hh ▸ List.mem_map_of_mem Prod.fst hq)
          have : c'.instructionLegStatus id q.1 = c.instructionLegStatus id q.1 := by
            rw [hst]; simp [update2, hqk]
          rcases hgood q (List.mem_cons_of_mem _ hq) with h1 | ⟨s, u, h1⟩
          · exact Or.inl (this.trans h1)
          · exact Or.inr ⟨s, u, this.trans h1⟩
        · have : c'.instructionLegStatus id l0 = c.instructionLegStatus id l0 := by
            rw [hst]; simp [update2, hl0k]
          exact this.trans hl0
      rcases hgood (k, leg) (List.mem_cons_self _ _) with hpend | ⟨s0, u0, hskip⟩
      · have hs := hunlock (k, leg) (List.mem_cons_self _ _) c.ext
        obtain ⟨e, he⟩ := Option.isSome_iff_exists.mp hs
        obtain ⟨hgood', hl0'⟩ := htrans
          { c with
            ext := e,
            instructionLegStatus :=
              update2 c.instructionLegStatus id k .pendingTokenLock } rfl
        have := ih _ l0 leg0 legsAfter hrestnodup hgood'
          (fun q hq => hunlock q (List.mem_cons_of_mem _ hq)) hl0rest hl0'
        simpa [withdrawLegsLoop, hpend, unlockViaLeg, he] using this
      · obtain ⟨hgood', hl0'⟩ := htrans
          { c with
            receiptsUsed := update2 c.receiptsUsed s0 u0 false,
            instructionLegStatus :=
              update2 c.instructionLegStatus id k .pendingTokenLock } rfl
        have := ih _ l0 leg0 legsAfter hrestnodup hgood'
          (fun q hq => hunlock q (List.mem_cons_of_mem _ hq)) hl0rest hl0'
        simpa [withdrawLegsLoop, hskip] using this

/-- `markWithdrawn` sets the given portfolios' user affirmations back to
`Pending` (and clears `AffirmsReceived`), touching nothing else. -/
theorem markWithdrawn_spec (id : Nat) :
    ∀ (ps : List Nat) (c : Chain E),
      (∀ p i, (markWithdrawn id c ps).userAffirmations p i
        = if p ∈ ps ∧ i = id then .pending else c.userAffirmations p i) ∧
      (markWithdrawn id c ps).instructionLegStatus = c.instructionLegStatus ∧
      (markWithdrawn id c ps).receiptsUsed = c.receiptsUsed ∧
      (markWithdrawn id c ps).instructionAffirmsPending
        = c.instructionAffirmsPending ∧
      (markWithdrawn id c ps).ext = c.ext := by
  intro ps
  induction ps with
  | nil =>
      intro c
      exact ⟨fun p i => by simp [markWithdrawn], rfl, rfl, rfl, rfl⟩
  | cons q rest ih =>
      intro c
      obtain ⟨ihu, ihst, ihru, ihap, ihext⟩ :=
        ih { c with
          userAffirmations := update2 c.userAffirmations q id .pending,
          affirmsReceived := update2 c.affirmsReceived id q .unknown }
      refine ⟨?_, ihst, ihru, ihap, ihext⟩
      intro p i
      simp only [markWithdrawn]
      rw [ihu p i]
      by_cases h1 : p ∈ rest ∧ i = id
      · rw [if_pos h1, if_pos ⟨List.mem_cons_of_mem _ h1.1, h1.2⟩]
      · rw [if_neg h1]
        simp only [update2]
        by_cases h2 : p = q ∧ i = id
        · rw [if_pos h2,
            if_pos ⟨by rw [h2.1]; exact List.mem_cons_self _ _, h2.2⟩]
        · rw [if_neg h2, if_neg ?_]
          rintro ⟨hm, hi⟩
          rcases List.mem_cons.mp hm with hm | hm
          · exact h2 ⟨hm, hi⟩
          · exact h1 ⟨hm, hi⟩

/-- `get_transfer_data` on all-fungible legs counts one fungible transfer
per leg and no NFTs. -/
theorem getTransferData_all_fungible {cfg : Config} :
    ∀ legs : List (Nat × LegV2),
      (∀ p ∈ legs, ∃ t a, p.2.asset = .fungible t a) →
      getTransferData cfg legs = .ok ⟨legs.length, 0⟩ := by
  intro legs
  induction legs with
  | nil => intro _; rfl
  | cons p rest ih =>
      intro hfun
      obtain ⟨lid, leg⟩ := p
      obtain ⟨t, a, hasset⟩ := hfun (lid, leg) (List.mem_cons_self _ _)
      have hasset2 : leg.asset = .fungible t a := hasset
      simp only [getTransferData,
        ih (fun q hq => hfun q (List.mem_cons_of_mem _ hq)), ebindOk, hasset2]
      rfl

/-- `filtered_legs` with no NFT count succeeds on an all-fungible filtered
set within the declared bound. -/
theorem filteredLegs_ok_fungible {cfg : Config} {c : Chain E} {id : Nat}
    {portfolioSet : List Nat} {fungibleTransfers : Nat}
    (hfun : ∀ p ∈ filteredSenderLegs c id portfolioSet,
      ∃ t a, p.2.asset = .fungible t a)
    (hle : (filteredSenderLegs c id portfolioSet).length ≤ fungibleTransfers) :
    filteredLegs cfg c id portfolioSet fungibleTransfers none
      = .ok ((getInstructionLegs c id).length,
             filteredSenderLegs c id portfolioSet) := by
  unfold filteredLegs
  rw [getTransferData_all_fungible _ hfun, ebindOk]
  unfold ensureValidInputCost
  rw [if_neg (by simp), if_pos hle, ebindOk]

end ClaimC7Lemmas

section ClaimC7

/-- **C7.** `withdraw_affirmation` on a not-yet-executed instruction
(validity precheck passing, custody passing): (A) it requires every given
portfolio's affirmation status to be `Affirmed`, else it fails with
`UnexpectedAffirmationStatus`; (B) on success, every filtered leg (sender
among the given portfolios) is reset to `PendingTokenLock`, receipt-covered
legs (`ExecutionToBeSkipped`) get their receipt's used flag cleared, locked
legs (`ExecutionPending`) have their tokens unlocked (the external state is
the fold of the unlocks), every given portfolio is reset to `Pending`, and
the pending-affirmations counter increases by the number of given
(distinct) portfolios; (C) reaching a filtered leg still in
`PendingTokenLock` makes the call fail with `InstructionNotAffirmed`. -/
theorem c7_withdraw_affirmation :
    ∀ (E : Type) (ex : Externals E) (cfg : Config) (c : Chain E)
      (id : Nat) (portfolios : List Nat) (maxLegsCount : Nat) (d : Instruction),
      ensureInstructionValidity c id false = .ok d →
      (∀ p ∈ btOfList portfolios, ex.custody p = true) →
      ((∃ p ∈ btOfList portfolios, c.userAffirmations p id ≠ .affirmed) →
        withdrawAffirmation ex cfg c id portfolios maxLegsCount
          = .error .unexpectedAffirmationStatus) ∧
      ((∀ p ∈ btOfList portfolios, c.userAffirmations p id = .affirmed) →
       (∀ p ∈ filteredSenderLegs c id (btOfList portfolios),
          ∃ t a, p.2.asset = .fungible t a) →
       (filteredSenderLegs c id (btOfList portfolios)).length ≤ maxLegsCount →
        ((((filteredSenderLegs c id (btOfList portfolios)).map Prod.fst).Nodup →
          (∀ p ∈ filteredSenderLegs c id (btOfList portfolios),
            withdrawableLeg c id p) →
          (∀ p ∈ filteredSenderLegs c id (btOfList portfolios),
            ∀ e, (ex.unlockLeg p.2 e).isSome = true) →
          ∃ c', withdrawAffirmation ex cfg c id portfolios maxLegsCount
              = .ok c' ∧
            (∀ p ∈ filteredSenderLegs c id (btOfList portfolios),
              c'.instructionLegStatus id p.1 = .pendingTokenLock) ∧
            (∀ s u, (∃ p ∈ filteredSenderLegs c id (btOfList portfolios),
                c.instructionLegStatus id p.1 = .executionToBeSkipped s u) →
              c'.receiptsUsed s u = false) ∧
            (∀ p ∈ btOfList portfolios, c'.userAffirmations p id = .pending) ∧
            c'.instructionAffirmsPending id
              = c.instructionAffirmsPending id + (btOfList portfolios).length ∧
            c'.ext = unlockExtFold ex c id
              (filteredSenderLegs c id (btOfList portfolios)) c.ext) ∧
         (∀ legsBefore l0 leg0 legsAfter,
           filteredSenderLegs c id (btOfList portfolios)
             = legsBefore ++ (l0, leg0) :: legsAfter →
           (legsBefore.map Prod.fst).Nodup →
           (∀ p ∈ legsBefore, withdrawableLeg c id p) →
           (∀ p ∈ legsBefore, ∀ e, (ex.unlockLeg p.2 e).isSome = true) →
           l0 ∉ legsBefore.map Prod.fst →
           c.instructionLegStatus id l0 = .pendingTokenLock →
           withdrawAffirmation ex cfg c id portfolios maxLegsCount
             = .error .instructionNotAffirmed))) := by
  intro E ex cfg c id portfolios maxLegsCount d hval hcust
  constructor
  · intro hbad
    have hport := ensurePortfolios_error_single ex c id .affirmed _ hcust hbad
    unfold withdrawAffirmation unsafeWithdrawInstructionAffirmation
    rw [hval]
    simp only [ebindOk]
    rw [hport]
    rfl
  · intro haff hfun hle
    have hport := ensurePortfolios_ok_single ex c id .affirmed _ hcust haff
    have hfl := @filteredLegs_ok_fungible _ cfg _ _ _ _ hfun hle
    constructor
    · intro hnodup hgood hunlock
      obtain ⟨c1, hloop, hst1, hru1, hext1, hua1, hap1, _, _, _⟩ :=
        withdrawLegsLoop_ok ex id _ c hnodup hgood hunlock
      obtain ⟨hmwU, hmwSt, hmwRu, hmwAp, hmwExt⟩ :=
        markWithdrawn_spec id (btOfList portfolios) c1
      refine ⟨bumpAffirmsPending id (btOfList portfolios).length
        (markWithdrawn id c1 (btOfList portfolios)), ?_, ?_, ?_, ?_, ?_, ?_⟩
      · unfold withdrawAffirmation unsafeWithdrawInstructionAffirmation
        rw [hval]
        simp only [ebindOk]
        rw [hport]
        simp only [ebindOk]
        rw [hfl]
        simp only [ebindOk]
        rw [hloop]
        simp only [ebindOk]
      · intro p hp
        show (markWithdrawn id c1 (btOfList portfolios)).instructionLegStatus
          id p.1 = .pendingTokenLock
        rw [hmwSt, hst1]
        rw [if_pos ⟨rfl, List.mem_map_of_mem Prod.fst hp⟩]
      · intro s u hclaim
        show (markWithdrawn id c1 (btOfList portfolios)).receiptsUsed s u = false
        rw [hmwRu, hru1, if_pos hclaim]
      · intro p hp
        show (markWithdrawn id c1 (btOfList portfolios)).userAffirmations p id
          = .pending
        rw [hmwU, if_pos ⟨hp, rfl⟩]
      · have hbump : (bumpAffirmsPending id (btOfList portfolios).length
            (markWithdrawn id c1 (btOfList portfolios))).instructionAffirmsPending
              id
            = (markWithdrawn id c1 (btOfList portfolios)).instructionAffirmsPending
                id + (btOfList portfolios).length := by
          simp [bumpAffirmsPending]
        rw [hbump, hmwAp, hap1]
      · show (markWithdrawn id c1 (btOfList portfolios)).ext
          = unlockExtFold ex c id
              (filteredSenderLegs c id (btOfList portfolios)) c.ext
        rw [hmwExt, hext1]
    · intro legsBefore l0 leg0 legsAfter hdecomp hnodupB hgoodB hunlockB
        hl0mem hl0
      have hloopErr : withdrawLegsLoop ex id c
          (filteredSenderLegs c id (btOfList portfolios))
          = .error .instructionNotAffirmed := by
        rw [hdecomp]
        exact withdrawLegsLoop_pending_error ex id legsBefore c l0 leg0
          legsAfter hnodupB hgoodB hunlockB hl0mem hl0
      unfold withdrawAffirmation unsafeWithdrawInstructionAffirmation
      rw [hval]
      simp only [ebindOk]
      rw [hport]
      simp only [ebindOk]
      rw [hfl]
      simp only [ebindOk]
      rw [hloopErr]
      rfl

/-- The standard instruction record of the witness states. -/
def instrW : Instruction :=
  { instructionId := 1, venueId := 2, settlementType := .settleOnAffirmation,
    createdAt := some 0, tradeDate := none, valueDate := none }

/-- A two-leg fungible instruction affirmed by portfolio 3: leg 0 locked,
leg 1 covered by receipt (signer 8, uid 3). -/
def c7Chain : Chain Nat :=
  { emptyChain with
    instructionDetails := fun i => if i = 1 then some instrW else none,
    instructionStatuses := fun i => if i = 1 then .pending else .unknown,
    instructionLegsV2 := fun i =>
      if i = 1 then [(0, ⟨3, 4, .fungible 7 100⟩), (1, ⟨3, 5, .fungible 9 50⟩)]
      else [],
    instructionLegStatus := fun i l =>
      if i = 1 ∧ l = 0 then .executionPending
      else if i = 1 ∧ l = 1 then .executionToBeSkipped 8 3
      else .pendingTokenLock,
    userAffirmations := fun p i =>
      if p = 3 ∧ i = 1 then .affirmed else .unknown,
    receiptsUsed := fun s u => s == 8 && u == 3 }

/-- Like `c7Chain` but portfolio 3 has not affirmed. -/
def c7BadChain : Chain Nat :=
  { c7Chain with
    userAffirmations := fun p i =>
      if p = 3 ∧ i = 1 then .pending else .unknown }

/-- Like `c7Chain` but leg 0 is still in `PendingTokenLock`. -/
def c7PtlChain : Chain Nat :=
  { c7Chain with
    instructionLegStatus := fun i l =>
      if i = 1 ∧ l = 1 then .executionToBeSkipped 8 3
      else .pendingTokenLock }

/-- The concrete withdraw run of the C7 witness. -/
def c7Run : Except Err (Chain Nat) :=
  withdrawAffirmation happyExternals witnessConfig c7Chain 1 [3] 5

/-- The post-state of the concrete withdraw run. -/
def c7ResChain : Chain Nat :=
  match c7Run with
  | .ok r => r
  | .error _ => emptyChain

/-- Witness for C7: the successful withdrawal resets both legs, unclaims
the receipt, resets portfolio 3 to `Pending` and bumps the counter; a
non-affirmed portfolio gives `UnexpectedAffirmationStatus`; a
`PendingTokenLock` leg gives `InstructionNotAffirmed`. -/
theorem c7_withdraw_affirmation_witness :
    c7ResChain.instructionLegStatus 1 0 = .pendingTokenLock ∧
    c7ResChain.instructionLegStatus 1 1 = .pendingTokenLock ∧
    c7ResChain.receiptsUsed 8 3 = false ∧
    c7ResChain.userAffirmations 3 1 = .pending ∧
    c7ResChain.instructionAffirmsPending 1 = 1 ∧
    withdrawAffirmation happyExternals witnessConfig c7BadChain 1 [3] 5
      = .error .unexpectedAffirmationStatus ∧
    withdrawAffirmation happyExternals witnessConfig c7PtlChain 1 [3] 5
      = .error .instructionNotAffirmed := by
  have hfun : ∀ p ∈ filteredSenderLegs c7Chain 1 (btOfList [3]),
      ∃ t a, p.2.asset = .fungible t a := by
    intro p hp
    have hp2 : p ∈ [((0 : Nat), (⟨3, 4, .fungible 7 100⟩ : LegV2)),
        (1, ⟨3, 5, .fungible 9 50⟩)] := hp
    rcases List.mem_cons.mp hp2 with h1 | h1
    · exact ⟨7, 100, by rw [h1]⟩
    · rcases List.mem_cons.mp h1 with h2 | h2
      · exact ⟨9, 50, by rw [h2]⟩
      · simp at h2
  have hgood : ∀ p ∈ filteredSenderLegs c7Chain 1 (btOfList [3]),
      withdrawableLeg c7Chain 1 p := by
    intro p hp
    have hp2 : p ∈ [((0 : Nat), (⟨3, 4, .fungible 7 100⟩ : LegV2)),
        (1, ⟨3, 5, .fungible 9 50⟩)] := hp
    rcases List.mem_cons.mp hp2 with h1 | h1
    · exact Or.inl (by rw [h1]; decide)
    · rcases List.mem_cons.mp h1 with h2 | h2
      · exact Or.inr ⟨8, 3, by rw [h2]; decide⟩
      · simp at h2
  have hunlock : ∀ p ∈ filteredSenderLegs c7Chain 1 (btOfList [3]),
      ∀ e : Nat, (happyExternals.unlockLeg p.2 e).isSome = true :=
    fun _ _ _ => rfl
  obtain ⟨_, hB⟩ := c7_withdraw_affirmation Nat happyExternals witnessConfig
    c7Chain 1 [3] 5 instrW (by rfl) (by decide)
  obtain ⟨hBmain, _⟩ := hB (by decide) hfun (by decide)
  obtain ⟨c', hrun, hst, hru, hua, hap, _⟩ := hBmain (by decide) hgood hunlock
  have hres : c7ResChain = c' := by
    unfold c7ResChain c7Run
    rw [hrun]
  obtain ⟨hA2, _⟩ := c7_withdraw_affirmation Nat happyExternals witnessConfig
    c7BadChain 1 [3] 5 instrW (by rfl) (by decide)
  have hbadrun := hA2 ⟨3, by decide, by decide⟩
  obtain ⟨_, hB3⟩ := c7_withdraw_affirmation Nat happyExternals witnessConfig
    c7PtlChain 1 [3] 5 instrW (by rfl) (by decide)
  have hfun3 : ∀ p ∈ filteredSenderLegs c7PtlChain 1 (btOfList [3]),
      ∃ t a, p.2.asset = .fungible t a := hfun
  obtain ⟨_, hC3⟩ := hB3 (by decide) hfun3 (by decide)
  have hptlrun := hC3 [] 0 ⟨3, 4, .fungible 7 100⟩ [(1, ⟨3, 5, .fungible 9 50⟩)]
    (by rfl) (by decide) (by intro p hp; simp at hp)
    (by intro p hp; simp at hp) (by decide) (by decide)
  refine ⟨?_, ?_, ?_, ?_, ?_, hbadrun, hptlrun⟩
  · rw [hres]
    exact hst (0, ⟨3, 4, .fungible 7 100⟩) (by decide)
  · rw [hres]
    exact hst (1, ⟨3, 5, .fungible 9 50⟩) (by decide)
  · rw [hres]
    exact hru 8 3 ⟨(1, ⟨3, 5, .fungible 9 50⟩), by decide, by decide⟩
  · rw [hres]
    exact hua 3 (by decide)
  · rw [hres, hap]
    decide

end ClaimC7

section ClaimC6Lemmas

/-- Deduplication preserves the length exactly on duplicate-free lists. -/
theorem dedup_length_eq {α : Type} [DecidableEq α] (l : List α) :
    l.dedup.length = l.length ↔ l.Nodup := by
  constructor
  · intro h
    have hd : l.dedup = l := (l.dedup_sublist).eq_of_length h
    rw [← hd]
    exact l.nodup_dedup
  · intro h
    rw [List.dedup_eq_self.mpr h]

/-- A head receipt that passes every check of `checkReceipts` can be
dropped: the loop continues identically on any tail. -/
theorem checkReceipts_cons_ok (ex : Externals E) (c : Chain E)
    (id v : Nat) (ps : List Nat) (a : ReceiptDetails) (l : List ReceiptDetails)
    (h : checkReceipts ex c id v ps (a :: l) = .ok ()) :
    ∀ X, checkReceipts ex c id v ps (a :: X) = checkReceipts ex c id v ps X := by
  intro X
  by_cases h1 : c.venueSigners v a.signer
  · by_cases h2 : c.receiptsUsed a.signer a.receiptUid
    · simp [checkReceipts, h1, h2] at h
    · cases hasset : (getInstructionLeg c id a.legId).asset with
      | nonFungible nfts => simp [checkReceipts, h1, h2, hasset] at h
      | fungible t amt =>
          by_cases h3 : (getInstructionLeg c id a.legId).from_ ∈ ps
          · by_cases h4 : c.tokens t
            · simp [checkReceipts, LegAsset.tickerAndAmount, h1, h2, hasset,
                h3, h4] at h
            · by_cases h5 : ex.verifySig a.signature
                  (receiptMsg (getInstructionLeg c id a.legId) a.receiptUid)
                  a.signer
              · simp [checkReceipts, LegAsset.tickerAndAmount, h1, h2, hasset,
                  h3, h4, h5]
              · simp [checkReceipts, LegAsset.tickerAndAmount, h1, h2, hasset,
                  h3, h4, h5] at h
          · simp [checkReceipts, h1, h2, hasset, h3] at h
  · simp [checkReceipts, h1] at h

/-- A passing prefix of the receipt-check loop can be discarded. -/
theorem checkReceipts_append_ok (ex : Externals E) (c : Chain E)
    (id v : Nat) (ps : List Nat) :
    ∀ (pre rest : List ReceiptDetails),
      checkReceipts ex c id v ps pre = .ok () →
      checkReceipts ex c id v ps (pre ++ rest)
        = checkReceipts ex c id v ps rest := by
  intro pre
  induction pre with
  | nil => intro rest _; rfl
  | cons a pre2 ih =>
      intro rest h
      have hstep := checkReceipts_cons_ok ex c id v ps a pre2 h
      have htail : checkReceipts ex c id v ps pre2 = .ok () := by
        rw [← hstep pre2]
        exact h
      have hc : (a :: pre2) ++ rest = a :: (pre2 ++ rest) := rfl
      rw [hc, hstep (pre2 ++ rest), ih rest htail]

/-- Reaching an already-used receipt whose signer is venue-authorized makes
the receipt check fail with `ReceiptAlreadyClaimed`. -/
theorem checkReceipts_used_error (ex : Externals E) (c : Chain E) (id v : Nat)
    (ps : List Nat) (pre : List ReceiptDetails) (r : ReceiptDetails)
    (post : List ReceiptDetails)
    (hpre : checkReceipts ex c id v ps pre = .ok ())
    (hsig : c.venueSigners v r.signer = true)
    (hused : c.receiptsUsed r.signer r.receiptUid = true) :
    checkReceipts ex c id v ps (pre ++ r :: post)
      = .error .receiptAlreadyClaimed := by
  rw [checkReceipts_append_ok ex c id v ps pre (r :: post) hpre]
  simp [checkReceipts, hsig, hused]

end ClaimC6Lemmas

section ClaimC6

/-- **C6.** A receipt identified by `(signer, receipt_uid)` is single-use:
`affirm_with_receipts` fails with `ReceiptAlreadyClaimed` (1) when two
supplied receipts share the pair (the dedup pre-check), or (2) when its
check loop reaches a receipt whose pair is already marked used (all earlier
receipts passing, the signer venue-authorized, the earlier entry-point
checks passing); and the used flag is reset to `false` — making the receipt
claimable again — (3) by a withdrawal of the covering affirmation, which
clears the receipt of every `ExecutionToBeSkipped` leg it resets, and
(4) by a failed execution attempt, whose rollback path unclaims the
receipts of all skipped legs. -/
theorem c6_receipt_single_use :
    ∀ (E : Type) (ex : Externals E) (cfg : Config) (c : Chain E)
      (id : Nat) (receiptDetails : List ReceiptDetails)
      (portfolios : List Nat) (maxLegsCount : Nat) (d : Instruction),
      ensureInstructionValidity c id false = .ok d →
      ((¬ (receiptDetails.map fun r => (r.signer, r.receiptUid)).Nodup) →
        affirmWithReceipts ex cfg c id receiptDetails portfolios maxLegsCount
          = .error .receiptAlreadyClaimed) ∧
      ((receiptDetails.map fun r => (r.signer, r.receiptUid)).Nodup →
       (∀ p ∈ btOfList portfolios, ex.custody p = true) →
       (∀ p ∈ btOfList portfolios, c.userAffirmations p id = .pending) →
       ∀ pre r post, receiptDetails = pre ++ r :: post →
         checkReceipts ex c id d.venueId (btOfList portfolios) pre = .ok () →
         c.venueSigners d.venueId r.signer = true →
         c.receiptsUsed r.signer r.receiptUid = true →
         affirmWithReceipts ex cfg c id receiptDetails portfolios maxLegsCount
           = .error .receiptAlreadyClaimed) ∧
      ((∀ p ∈ btOfList portfolios, ex.custody p = true) →
       (∀ p ∈ btOfList portfolios, c.userAffirmations p id = .affirmed) →
       (∀ p ∈ filteredSenderLegs c id (btOfList portfolios),
         ∃ t a, p.2.asset = .fungible t a) →
       (filteredSenderLegs c id (btOfList portfolios)).length ≤ maxLegsCount →
       ((filteredSenderLegs c id (btOfList portfolios)).map Prod.fst).Nodup →
       (∀ p ∈ filteredSenderLegs c id (btOfList portfolios),
         withdrawableLeg c id p) →
       (∀ p ∈ filteredSenderLegs c id (btOfList portfolios),
         ∀ e, (ex.unlockLeg p.2 e).isSome = true) →
       ∃ c', withdrawAffirmation ex cfg c id portfolios maxLegsCount
           = .ok c' ∧
         ∀ s u, (∃ p ∈ filteredSenderLegs c id (btOfList portfolios),
             c.instructionLegStatus id p.1 = .executionToBeSkipped s u) →
           c'.receiptsUsed s u = false) ∧
      (∀ legId s u,
        c.instructionAffirmsPending id = 0 →
        c.instructionStatuses id = .pending →
        venueCheckLoop c (c.details id).venueId (executionOrder c id) []
          = true →
        (releaseAssetLocksAndTransferPendingLegs ex id (executionOrder c id)
          c).2 = .error legId →
        (∃ p ∈ executionOrder c id,
          c.instructionLegStatus id p.1 = .executionToBeSkipped s u) →
        (executeInstruction ex c id).2 = .error .instructionFailed ∧
        (executeInstruction ex c id).1.receiptsUsed s u = false) := by
  intro E ex cfg c id receiptDetails portfolios maxLegsCount d hval
  refine ⟨?_, ?_, ?_, ?_⟩
  · intro hdup
    have hne : ¬ ((receiptDetails.map
        fun r => (r.signer, r.receiptUid)).dedup.length
        = receiptDetails.length) := by
      intro heq
      apply hdup
      refine (dedup_length_eq _).mp ?_
      rw [List.length_map]
      exact heq
    unfold affirmWithReceipts baseAffirmWithReceipts
    rw [hval]
    simp only [ebindOk]
    rw [if_neg hne]
    rfl
  · intro hnodup hcust haffp pre r post hdecomp hpre hsig hused
    have hport := ensurePortfolios_ok_single ex c id .pending _ hcust haffp
    have hchk := checkReceipts_used_error ex c id d.venueId (btOfList portfolios)
      pre r post hpre hsig hused
    have hpos : (receiptDetails.map
        fun q => (q.signer, q.receiptUid)).dedup.length
        = receiptDetails.length := by
      rw [List.dedup_eq_self.mpr hnodup, List.length_map]
    unfold affirmWithReceipts baseAffirmWithReceipts
    rw [hval]
    simp only [ebindOk]
    rw [if_pos hpos]
    simp only [ebindOk]
    rw [hport]
    simp only [ebindOk]
    rw [hdecomp, hchk]
    rfl
  · intro hcust haff hfun hle hnodup hgood hunlock
    have hport := ensurePortfolios_ok_single ex c id .affirmed _ hcust haff
    have hfl := @filteredLegs_ok_fungible _ cfg _ _ _ _ hfun hle
    obtain ⟨c1, hloop, hst1, hru1, hext1, hua1, hap1, _, _, _⟩ :=
      withdrawLegsLoop_ok ex id _ c hnodup hgood hunlock
    obtain ⟨hmwU, hmwSt, hmwRu, hmwAp, hmwExt⟩ :=
      markWithdrawn_spec id (btOfList portfolios) c1
    refine ⟨bumpAffirmsPending id (btOfList portfolios).length
      (markWithdrawn id c1 (btOfList portfolios)), ?_, ?_⟩
    · unfold withdrawAffirmation unsafeWithdrawInstructionAffirmation
      rw [hval]
      simp only [ebindOk]
      rw [hport]
      simp only [ebindOk]
      rw [hfl]
      simp only [ebindOk]
      rw [hloop]
      simp only [ebindOk]
    · intro s u hclaim
      show (markWithdrawn id c1 (btOfList portfolios)).receiptsUsed s u = false
      rw [hmwRu, hru1, if_pos hclaim]
  · intro legId s u h0 hs hv hfail hclaim
    have hexec : executeInstruction ex c id
        = (unclaimReceipts id c (executionOrder c id),
           .error .instructionFailed) := by
      unfold executeInstruction
      rw [if_neg (by simp [h0])]
      rw [if_neg (by simp [hs])]
      rw [if_neg (by simp [hv])]
      simp only [hfail]
    rw [hexec]
    exact ⟨rfl, unclaimReceipts_clears id c (executionOrder c id) s u hclaim⟩

/-- A concrete receipt over leg 0, uid 3, signed by account 8. -/
def c6Receipt : ReceiptDetails :=
  { receiptUid := 3, legId := 0, signer := 8, signature := 0, metadata := 0 }

/-- A pending instruction whose venue authorizes signer 8 and where the
pair `(8, 3)` is already marked used. -/
def c6UsedChain : Chain Nat :=
  { emptyChain with
    instructionDetails := fun i => if i = 1 then some instrW else none,
    instructionStatuses := fun i => if i = 1 then .pending else .unknown,
    venueSigners := fun v s => v == 2 && s == 8,
    userAffirmations := fun p i =>
      if p = 3 ∧ i = 1 then .pending else .unknown,
    receiptsUsed := fun s u => s == 8 && u == 3 }

/-- A two-leg fungible instruction affirmed by portfolio 3, leg 0 locked and
leg 1 covered by the claimed receipt `(8, 3)`. -/
def c6WChain : Chain Nat :=
  { emptyChain with
    instructionDetails := fun i => if i = 1 then some instrW else none,
    instructionStatuses := fun i => if i = 1 then .pending else .unknown,
    instructionLegsV2 := fun i =>
      if i = 1 then [(0, ⟨3, 4, .fungible 7 100⟩), (1, ⟨3, 5, .fungible 9 50⟩)]
      else [],
    instructionLegStatus := fun i l =>
      if i = 1 ∧ l = 0 then .executionPending
      else if i = 1 ∧ l = 1 then .executionToBeSkipped 8 3
      else .pendingTokenLock,
    userAffirmations := fun p i =>
      if p = 3 ∧ i = 1 then .affirmed else .unknown,
    receiptsUsed := fun s u => s == 8 && u == 3 }

/-- The concrete withdraw run of the C6 witness. -/
def c6Run : Except Err (Chain Nat) :=
  withdrawAffirmation happyExternals witnessConfig c6WChain 1 [3] 5

/-- The post-state of the concrete withdraw run of the C6 witness. -/
def c6ResChain : Chain Nat :=
  match c6Run with
  | .ok rr => rr
  | .error _ => emptyChain

/-- Witness for C6: duplicated pairs and an already-used pair are rejected
with `ReceiptAlreadyClaimed`; a withdrawal of the covering affirmation and
a failed execution attempt both reset the used flag of the claimed receipt
`(8, 3)`. -/
theorem c6_receipt_single_use_witness :
    affirmWithReceipts happyExternals witnessConfig c6UsedChain 1
      [c6Receipt, c6Receipt] [3] 5 = .error .receiptAlreadyClaimed ∧
    affirmWithReceipts happyExternals witnessConfig c6UsedChain 1
      [c6Receipt] [3] 5 = .error .receiptAlreadyClaimed ∧
    c6ResChain.receiptsUsed 8 3 = false ∧
    (executeInstruction failingTransferExternals c6WChain 1).2
      = .error .instructionFailed ∧
    (executeInstruction failingTransferExternals c6WChain 1).1.receiptsUsed 8 3
      = false := by
  obtain ⟨h1, _, _, _⟩ := c6_receipt_single_use Nat happyExternals
    witnessConfig c6UsedChain 1 [c6Receipt, c6Receipt] [3] 5 instrW (by rfl)
  obtain ⟨_, h2, _, _⟩ := c6_receipt_single_use Nat happyExternals
    witnessConfig c6UsedChain 1 [c6Receipt] [3] 5 instrW (by rfl)
  obtain ⟨_, _, h3, _⟩ := c6_receipt_single_use Nat happyExternals
    witnessConfig c6WChain 1 [] [3] 5 instrW (by rfl)
  obtain ⟨_, _, _, h4⟩ := c6_receipt_single_use Nat failingTransferExternals
    witnessConfig c6WChain 1 [] [3] 5 instrW (by rfl)
  have hfun : ∀ p ∈ filteredSenderLegs c6WChain 1 (btOfList [3]),
      ∃ t a, p.2.asset = .fungible t a := by
    intro p hp
    have hp2 : p ∈ [((0 : Nat), (⟨3, 4, .fungible 7 100⟩ : LegV2)),
        (1, ⟨3, 5, .fungible 9 50⟩)] := hp
    rcases List.mem_cons.mp hp2 with hm | hm
    · exact ⟨7, 100, by rw [hm]⟩
    · rcases List.mem_cons.mp hm with hm2 | hm2
      · exact ⟨9, 50, by rw [hm2]⟩
      · simp at hm2
  have hgood : ∀ p ∈ filteredSenderLegs c6WChain 1 (btOfList [3]),
      withdrawableLeg c6WChain 1 p := by
    intro p hp
    have hp2 : p ∈ [((0 : Nat), (⟨3, 4, .fungible 7 100⟩ : LegV2)),
        (1, ⟨3, 5, .fungible 9 50⟩)] := hp
    rcases List.mem_cons.mp hp2 with hm | hm
    · exact Or.inl (by rw [hm]; decide)
    · rcases List.mem_cons.mp hm with hm2 | hm2
      · exact Or.inr ⟨8, 3, by rw [hm2]; decide⟩
      · simp at hm2
  obtain ⟨c', hrun, hclear⟩ := h3 (by decide) (by decide) hfun (by decide)
    (by decide) hgood (fun _ _ _ => rfl)
  have hres : c6ResChain = c' := by
    unfold c6ResChain c6Run
    rw [hrun]
  have hclaim : ∃ p ∈ filteredSenderLegs c6WChain 1 (btOfList [3]),
      c6WChain.instructionLegStatus 1 p.1 = .executionToBeSkipped 8 3 :=
    ⟨(1, ⟨3, 5, .fungible 9 50⟩), by decide, by decide⟩
  have h4c := h4 0 8 3 (by decide) (by decide) (by decide) (by rfl)
    ⟨(1, ⟨3, 5, .fungible 9 50⟩), by decide, by decide⟩
  exact ⟨h1 (by decide),
    h2 (by decide) (by decide) (by decide) [] c6Receipt [] rfl rfl
      (by decide) (by decide),
    by rw [hres]; exact hclear 8 3 hclaim,
    h4c.1, h4c.2⟩

end ClaimC6

end Settlement
